import Mathlib

/-!
# Verification of the resident-scheduler constraint engine

A shallow embedding of `resident_scheduler_public` (files `resident.py`,
`service.py`, `scheduler.py`) and proofs about it.

Modelling conventions:
* Python `int` is modelled by `ℤ` (and list/block indices by `ℕ`);
  Python `float` arithmetic (the restrictiveness scores and the service
  sort keys) is modelled by exact rationals `ℚ`.
* The resident-view schedule `_schedule` is a function `ℕ → ℕ → ℤ`
  (resident index, block index ↦ entry); `-1` is the "unassigned"
  sentinel and `numServices` the explicit free/elective sentinel,
  exactly as in the source.
* The service-view `_service_schedule` maps (service, block) to the
  `Finset ℕ` of resident indices, mirroring the Python `set`.
* Python's global `random` module is modelled by an abstract pseudo-random
  generator `prng : ℕ → ℕ → ℚ` (seed ↦ stream of draws) plus an explicit
  pre-call generator state (a stream `ℕ → ℚ`); `random.seed` replaces the
  state by `prng seed`, and the i-th subsequent `random.random()` call
  reads draw `i`.
* Python's stable `sorted(..., key=...)` is modelled by
  `List.insertionSort` with the (total, transitive) key preorder, which
  is the same stable sort.
-/

namespace ResidentScheduler

/- Batteries marks the `Rat` field operations `@[irreducible]`; reset
them so concrete engine runs can be evaluated by `decide`. -/
attribute [local semireducible] Rat.add Rat.mul Rat.sub Rat.inv

/-- `resident.py`: the fields of `Resident` read by the scheduling engine
(name/id/specialty only affect the pre-sorting of equal inputs and the
out-of-scope reporting layer). -/
structure Resident where
  year : ℤ
  isFellowshipApplicant : Bool
  isRisingChief : Bool
  deriving DecidableEq

/-- `service.py`: the fields of `Service` read by the scheduling engine
(the intern-tier staffing fields, `priority` and `allows_vacations` are
never read by `scheduler.py`). -/
structure Service where
  isCore : Bool
  minSeniorsPerBlock : ℤ
  maxSeniorsPerBlock : ℤ
  minBlocksPerSenior : ℤ
  maxBlocksPerSenior : ℤ
  earliestPgy2Block : ℤ
  isDifficult : Bool
  deriving DecidableEq

/-- The construction inputs of `Scheduler.__init__` (the residents list is
taken post-sorting; `weeks_per_block` is never read by the engine). -/
structure SchedInputs where
  services : List Service
  residents : List Resident
  numBlocksPerYear : ℕ
  numYears : ℤ
  deriving DecidableEq

namespace SchedInputs

/-- Short names for the dimensions. -/
def S (env : SchedInputs) : ℕ := env.services.length

def R (env : SchedInputs) : ℕ := env.residents.length

def B (env : SchedInputs) : ℕ := env.numBlocksPerYear

/-- `self.services[s_idx]` (only ever applied at `s < S`). -/
def svc (env : SchedInputs) (s : ℕ) : Service :=
  env.services.getD s ⟨false, 0, 0, 0, 0, 0, false⟩

/-- `self.residents[r_idx]` (only ever applied at `r < R`). -/
def res (env : SchedInputs) (r : ℕ) : Resident :=
  env.residents.getD r ⟨0, false, false⟩

/-- `self.expected_rate_per_service[s_idx]`:
`min_blocks_per_senior / ((num_years - 1) * num_blocks_per_year)`. -/
def expectedRatePerService (env : SchedInputs) (s : ℕ) : ℚ :=
  ((env.svc s).minBlocksPerSenior : ℚ) /
    (((env.numYears - 1 : ℤ) : ℚ) * (env.B : ℚ))

end SchedInputs

open SchedInputs

/-- The mutable engine state of `Scheduler` (everything `create` and the
`_assign`/`_unassign` bookkeeping touch). -/
structure SchedState where
  schedule : ℕ → ℕ → ℤ
  serviceSchedule : ℕ → ℕ → Finset ℕ
  residentServiceCount : ℕ → ℕ → ℤ
  remainingResidentsPerBlock : ℕ → ℤ
  remainingBlocksPerResident : ℕ → ℤ
  remainingSpotsPerServicePerBlock : ℕ → ℕ → ℤ
  remainingSpotsPerBlock : ℕ → ℤ

@[ext] theorem SchedState.ext_iff_fields {σ τ : SchedState}
    (h1 : σ.schedule = τ.schedule)
    (h2 : σ.serviceSchedule = τ.serviceSchedule)
    (h3 : σ.residentServiceCount = τ.residentServiceCount)
    (h4 : σ.remainingResidentsPerBlock = τ.remainingResidentsPerBlock)
    (h5 : σ.remainingBlocksPerResident = τ.remainingBlocksPerResident)
    (h6 : σ.remainingSpotsPerServicePerBlock = τ.remainingSpotsPerServicePerBlock)
    (h7 : σ.remainingSpotsPerBlock = τ.remainingSpotsPerBlock) : σ = τ := by
  cases σ; cases τ; cases h1; cases h2; cases h3; cases h4; cases h5; cases h6; cases h7; rfl

/-- `Scheduler._get_remaining`: recompute the four `remaining*` counter
families from the current schedule by full scan. -/
def getRemaining (env : SchedInputs) (σ : SchedState) : SchedState :=
  { σ with
    remainingResidentsPerBlock := fun b =>
      (((Finset.range env.R).filter (fun r => σ.schedule r b = -1)).card : ℤ)
    remainingBlocksPerResident := fun r =>
      (((Finset.range env.B).filter (fun b => σ.schedule r b = -1)).card : ℤ)
        + (env.numYears - (env.res r).year + 1) * (env.B : ℤ)
    remainingSpotsPerServicePerBlock := fun s _ => (env.svc s).minSeniorsPerBlock
    remainingSpotsPerBlock := fun _ =>
      ∑ s ∈ Finset.range env.S, (env.svc s).minSeniorsPerBlock }

/-- `Scheduler.__init__`: empty resident view (all `-1`), empty service
view, zero counts, counters established by `_get_remaining`. -/
def initState (env : SchedInputs) : SchedState :=
  getRemaining env
    { schedule := fun _ _ => -1
      serviceSchedule := fun _ _ => ∅
      residentServiceCount := fun _ _ => 0
      remainingResidentsPerBlock := fun _ => 0
      remainingBlocksPerResident := fun _ => 0
      remainingSpotsPerServicePerBlock := fun _ _ => 0
      remainingSpotsPerBlock := fun _ => 0 }

/-- `Scheduler._assign`. -/
def assign (b r s : ℕ) (σ : SchedState) : SchedState :=
  { schedule := fun r' b' => if r' = r ∧ b' = b then (s : ℤ) else σ.schedule r' b'
    serviceSchedule := fun s' b' =>
      if s' = s ∧ b' = b then insert r (σ.serviceSchedule s' b') else σ.serviceSchedule s' b'
    residentServiceCount := fun r' s' =>
      if r' = r ∧ s' = s then σ.residentServiceCount r' s' + 1 else σ.residentServiceCount r' s'
    remainingSpotsPerServicePerBlock := fun s' b' =>
      if s' = s ∧ b' = b then σ.remainingSpotsPerServicePerBlock s' b' - 1
      else σ.remainingSpotsPerServicePerBlock s' b'
    remainingSpotsPerBlock := fun b' =>
      if b' = b then σ.remainingSpotsPerBlock b' - 1 else σ.remainingSpotsPerBlock b'
    remainingResidentsPerBlock := fun b' =>
      if b' = b then σ.remainingResidentsPerBlock b' - 1 else σ.remainingResidentsPerBlock b'
    remainingBlocksPerResident := fun r' =>
      if r' = r then σ.remainingBlocksPerResident r' - 1 else σ.remainingBlocksPerResident r' }

/-- `Scheduler._unassign`. -/
def unassign (b r s : ℕ) (σ : SchedState) : SchedState :=
  { schedule := fun r' b' => if r' = r ∧ b' = b then -1 else σ.schedule r' b'
    serviceSchedule := fun s' b' =>
      if s' = s ∧ b' = b then (σ.serviceSchedule s' b').erase r else σ.serviceSchedule s' b'
    residentServiceCount := fun r' s' =>
      if r' = r ∧ s' = s then σ.residentServiceCount r' s' - 1 else σ.residentServiceCount r' s'
    remainingSpotsPerServicePerBlock := fun s' b' =>
      if s' = s ∧ b' = b then σ.remainingSpotsPerServicePerBlock s' b' + 1
      else σ.remainingSpotsPerServicePerBlock s' b'
    remainingSpotsPerBlock := fun b' =>
      if b' = b then σ.remainingSpotsPerBlock b' + 1 else σ.remainingSpotsPerBlock b'
    remainingResidentsPerBlock := fun b' =>
      if b' = b then σ.remainingResidentsPerBlock b' + 1 else σ.remainingResidentsPerBlock b'
    remainingBlocksPerResident := fun r' =>
      if r' = r then σ.remainingBlocksPerResident r' + 1 else σ.remainingBlocksPerResident r' }

/-- `Scheduler._assign_free_block`: `len(self.services)` denotes the
explicit free/elective block. -/
def assignFreeBlock (env : SchedInputs) (b r : ℕ) (σ : SchedState) : SchedState :=
  { σ with
    schedule := fun r' b' => if r' = r ∧ b' = b then (env.S : ℤ) else σ.schedule r' b'
    remainingResidentsPerBlock := fun b' =>
      if b' = b then σ.remainingResidentsPerBlock b' - 1 else σ.remainingResidentsPerBlock b'
    remainingBlocksPerResident := fun r' =>
      if r' = r then σ.remainingBlocksPerResident r' - 1 else σ.remainingBlocksPerResident r' }

/-- `Scheduler._put_rising_chiefs_on_pseudo_elective`. -/
def putRisingChiefsOnPseudoElective (env : SchedInputs) (σ : SchedState) : SchedState :=
  (List.range env.R).foldl
    (fun σ' r =>
      if (env.res r).isRisingChief then assignFreeBlock env (env.B - 1) r σ' else σ')
    σ

/-- `Scheduler._initialize_service_count`: `none` resets all counts to 0
(a missing argument); `some f` overwrites exactly the supplied
(resident, service) entries of the dict-of-dicts. -/
def initServiceCount (rsc : Option (ℕ → ℕ → Option ℤ)) (σ : SchedState) : SchedState :=
  match rsc with
  | none => { σ with residentServiceCount := fun _ _ => 0 }
  | some f =>
      { σ with residentServiceCount := fun r s => (f r s).getD (σ.residentServiceCount r s) }

/-- The engine state at the moment `Scheduler.create` starts its search:
rising-chief pre-pass, then count seeding, then `_get_remaining`. -/
def searchStart (env : SchedInputs) (rsc : Option (ℕ → ℕ → Option ℤ)) : SchedState :=
  getRemaining env (initServiceCount rsc (putRisingChiefsOnPseudoElective env (initState env)))

/-! ## The rule engine (`Scheduler._get_rules`, `Scheduler._any_rule_violated`) -/

/-- Rule 1: resident has already been assigned this service the maximum
number of times. -/
def maxServiceCountReached (env : SchedInputs) (σ : SchedState) (_b r s : ℕ) : Bool :=
  σ.residentServiceCount r s = (env.svc s).maxBlocksPerSenior

/-- Rule 2: 2nd-year resident cannot senior this service yet. -/
def tooEarlyForSecondYear (env : SchedInputs) (b r s : ℕ) : Bool :=
  (env.res r).year = 2 ∧ ((b : ℤ) + 1 < (env.svc s).earliestPgy2Block)

/-- Rule 3: fellowship applicants can't be on core services on blocks 3 or 4. -/
def fellowshipApplicantBlockThreeOrFour (env : SchedInputs) (b r s : ℕ) : Bool :=
  (b = 3 ∨ b = 4) ∧ (env.res r).isFellowshipApplicant ∧ (env.svc s).isCore

/-- Rule 4: rising chiefs shouldn't be assigned to a service on last block. -/
def risingChiefLastBlock (env : SchedInputs) (b r _s : ℕ) : Bool :=
  b = env.B - 1 ∧ (env.res r).isRisingChief

/-- Rule 5: "3rd-year residents shouldn't be on core services on last
block": `b_idx == 12 and year == 3 and is_core`. -/
def thirdYearLastBlock (env : SchedInputs) (b r s : ℕ) : Bool :=
  b = 12 ∧ (env.res r).year = 3 ∧ (env.svc s).isCore

/-- `Scheduler._any_rule_violated`: short-circuiting disjunction of the
five rules. -/
def anyRuleViolated (env : SchedInputs) (σ : SchedState) (b r s : ℕ) : Bool :=
  maxServiceCountReached env σ b r s || tooEarlyForSecondYear env b r s ||
    fellowshipApplicantBlockThreeOrFour env b r s || risingChiefLastBlock env b r s ||
    thirdYearLastBlock env b r s

/-! ## Lexicographic key comparison (Python tuple comparison) -/

/-- One level of Python tuple comparison: strictly smaller first
component, or equal first components and the remaining tuple `rest`. -/
def lexStep {α : Type} [LinearOrder α] (x y : α) (rest : Prop) : Prop :=
  x < y ∨ (x = y ∧ rest)

instance {α : Type} [LinearOrder α] (x y : α) (rest : Prop) [Decidable rest] :
    Decidable (lexStep x y rest) :=
  inferInstanceAs (Decidable (_ ∨ _))

theorem lexStep_total {α : Type} [LinearOrder α] (x y : α) {r1 r2 : Prop}
    (h : r1 ∨ r2) : lexStep x y r1 ∨ lexStep y x r2 := by
  rcases lt_trichotomy x y with hxy | hxy | hxy
  · exact Or.inl (Or.inl hxy)
  · rcases h with h | h
    · exact Or.inl (Or.inr ⟨hxy, h⟩)
    · exact Or.inr (Or.inr ⟨hxy.symm, h⟩)
  · exact Or.inr (Or.inl hxy)

theorem lexStep_trans {α : Type} [LinearOrder α] {x y z : α} {r1 r2 r3 : Prop}
    (h : r1 → r2 → r3) :
    lexStep x y r1 → lexStep y z r2 → lexStep x z r3 := by
  rintro (h1 | ⟨rfl, h1⟩) (h2 | ⟨rfl, h2⟩)
  · exact Or.inl (h1.trans h2)
  · exact Or.inl h1
  · exact Or.inl h2
  · exact Or.inr ⟨rfl, h h1 h2⟩

/-! ## Value order (`Scheduler._service_sort_key` and helpers) -/

/-- `Scheduler._service_cooldown`. -/
def serviceCooldown (env : SchedInputs) (σ : SchedState) (b r s : ℕ) : ℤ :=
  (if 1 ≤ b ∧ σ.schedule r (b - 1) = (s : ℤ) then 2 else 0)
    + (if b + 1 < env.B ∧ σ.schedule r (b + 1) = (s : ℤ) then 2 else 0)
    + (if 2 ≤ b ∧ σ.schedule r (b - 2) = (s : ℤ) then 1 else 0)
    + (if b + 2 < env.B ∧ σ.schedule r (b + 2) = (s : ℤ) then 1 else 0)

/-- `Scheduler._consecutive_difficult_services` (the neighbour index is an
`ℤ` because Python evaluates `b_idx - 1` before the `0 <=` guard). -/
def consecutiveDifficultServices (env : SchedInputs) (σ : SchedState) (b r s : ℕ) : Bool :=
  (env.svc s).isDifficult ∧
    [(b : ℤ) - 1, (b : ℤ) + 1].any (fun nei =>
      decide (0 ≤ nei ∧ nei < (env.B : ℤ) ∧
        0 ≤ σ.schedule r nei.toNat ∧ σ.schedule r nei.toNat < (env.S : ℤ) ∧
        (env.svc (σ.schedule r nei.toNat).toNat).isDifficult = true))

/-- `Scheduler._service_sort_key`: (cooldown, consecutive-difficult flag
as 0/1, capacity pressure, pace deviation). -/
def serviceSortKey (env : SchedInputs) (σ : SchedState) (b r s : ℕ) : ℤ × ℕ × ℤ × ℚ :=
  (serviceCooldown env σ b r s,
    cond (consecutiveDifficultServices env σ b r s) 1 0,
    σ.remainingSpotsPerServicePerBlock s b - (env.svc s).maxBlocksPerSenior,
    env.expectedRatePerService s -
      (σ.residentServiceCount r s : ℚ) / (σ.remainingBlocksPerResident r : ℚ))

/-- Ascending Python comparison of two `_service_sort_key` tuples. -/
def svcKeyLe (k l : ℤ × ℕ × ℤ × ℚ) : Prop :=
  lexStep k.1 l.1 (lexStep k.2.1 l.2.1 (lexStep k.2.2.1 l.2.2.1 (k.2.2.2 ≤ l.2.2.2)))

instance (k l : ℤ × ℕ × ℤ × ℚ) : Decidable (svcKeyLe k l) :=
  inferInstanceAs (Decidable (lexStep _ _ _))

/-- `sorted(range(len(self.services)), key=...)` in `create`. -/
def sortedServiceIdxs (env : SchedInputs) (σ : SchedState) (b r : ℕ) : List ℕ :=
  List.insertionSort
    (fun s1 s2 => svcKeyLe (serviceSortKey env σ b r s1) (serviceSortKey env σ b r s2))
    (List.range env.S)

/-! ## Variable order (`Scheduler._block_resident_order`) -/

/-- The per-pair restrictiveness score: the sum of
`min_seniors_per_block / max_blocks_per_senior` over every service the
rule engine forbids for this (block, resident) pair. -/
def restrictions (env : SchedInputs) (σ : SchedState) (b r : ℕ) : ℚ :=
  ∑ s ∈ Finset.range env.S,
    if anyRuleViolated env σ b r s then
      ((env.svc s).minSeniorsPerBlock : ℚ) / ((env.svc s).maxBlocksPerSenior : ℚ)
    else 0

/-- The per-block restrictiveness: the sum over all residents of the
pair scores of this block. -/
def restrictionsByBlock (env : SchedInputs) (σ : SchedState) (b : ℕ) : ℚ :=
  ∑ r ∈ Finset.range env.R, restrictions env σ b r

/-- The insertion-ordered key list of the `restrictions` dict: all
(block, resident) pairs, block-major. -/
def allPairs (env : SchedInputs) : List (ℕ × ℕ) :=
  (List.range env.B).flatMap (fun b => (List.range env.R).map (fun r => (b, r)))

/-- The final tiebreak of `block_resident_sort_key`: the `random.random()`
draw made when the key of the pair at position `b * R + r` of the key
list is computed, or the resident index when randomization is off. -/
def tieBreak (env : SchedInputs) (randomize : Bool) (stream : ℕ → ℚ) (p : ℕ × ℕ) : ℚ :=
  if randomize then stream (p.1 * env.R + p.2) else (p.2 : ℚ)

/-- `block_resident_sort_key`. -/
def blockResidentSortKey (env : SchedInputs) (σ : SchedState) (randomize : Bool)
    (stream : ℕ → ℚ) (p : ℕ × ℕ) : ℚ × ℕ × ℚ × ℤ × ℚ :=
  (-restrictionsByBlock env σ p.1,
    p.1,
    -restrictions env σ p.1 p.2,
    -(env.res p.2).year,
    tieBreak env randomize stream p)

/-- Ascending Python comparison of two `block_resident_sort_key` tuples. -/
def pairKeyLe (k l : ℚ × ℕ × ℚ × ℤ × ℚ) : Prop :=
  lexStep k.1 l.1 (lexStep k.2.1 l.2.1
    (lexStep k.2.2.1 l.2.2.1 (lexStep k.2.2.2.1 l.2.2.2.1 (k.2.2.2.2 ≤ l.2.2.2.2))))

instance (k l : ℚ × ℕ × ℚ × ℤ × ℚ) : Decidable (pairKeyLe k l) :=
  inferInstanceAs (Decidable (lexStep _ _ _))

/-- `Scheduler._block_resident_order`: `random.seed(self.random_seed)` is
modelled by the caller passing `stream := prng randomSeed`; the sort
is the stable ascending sort by `block_resident_sort_key`. -/
def blockResidentOrder (env : SchedInputs) (σ : SchedState) (randomize : Bool)
    (stream : ℕ → ℚ) : List (ℕ × ℕ) :=
  List.insertionSort
    (fun p q => pairKeyLe (blockResidentSortKey env σ randomize stream p)
      (blockResidentSortKey env σ randomize stream q))
    (allPairs env)

/-! ## Global validity and the read-only schedule accessors -/

/-- `Scheduler._is_valid_schedule`: every (service, block) occupancy lies
within `[min_seniors_per_block, max_seniors_per_block]`. -/
def isValidSchedule (env : SchedInputs) (σ : SchedState) : Bool :=
  (List.range env.S).all fun s =>
    (List.range env.B).all fun b =>
      decide ((env.svc s).minSeniorsPerBlock ≤ ((σ.serviceSchedule s b).card : ℤ)
        ∧ ((σ.serviceSchedule s b).card : ℤ) ≤ (env.svc s).maxSeniorsPerBlock)

/-- The read-only `schedule` property: the resident view, or absent. -/
def scheduleAccessor (env : SchedInputs) (σ : SchedState) : Option (ℕ → ℕ → ℤ) :=
  if isValidSchedule env σ then some σ.schedule else none

/-- The read-only `service_schedule` property: the service view, or absent. -/
def serviceScheduleAccessor (env : SchedInputs) (σ : SchedState) :
    Option (ℕ → ℕ → Finset ℕ) :=
  if isValidSchedule env σ then some σ.serviceSchedule else none

/-! ## The backtracking search (`Scheduler.create.backtrack`) -/

/-- The candidate loop `for s_idx in s_idxs` of `backtrack`: skip a
candidate whose per-block capacity is zero or that violates a rule;
otherwise assign, recurse (`recur`), and on failure unassign and try the
next candidate. Returns the result flag and the state it left behind. -/
def tryCands (env : SchedInputs) (recur : SchedState → Bool × SchedState) (b r : ℕ) :
    List ℕ → SchedState → Bool × SchedState
  | [], σ => (false, σ)
  | s :: ss, σ =>
    if σ.remainingSpotsPerServicePerBlock s b = 0 ∨ anyRuleViolated env σ b r s = true then
      tryCands env recur b r ss σ
    else
      let out := recur (assign b r s σ)
      if out.1 then out
      else tryCands env recur b r ss (unassign b r s out.2)

/-- `backtrack(idx)` with the remaining suffix of `order` as explicit
argument. At the end of the order, the global validity predicate decides
acceptance; an already-assigned pair is skipped; otherwise the sorted
candidates are tried, and then the free-block fallback when there are
more remaining residents than remaining service spots for the block. -/
def backtrack (env : SchedInputs) : List (ℕ × ℕ) → SchedState → Bool × SchedState
  | [], σ => (isValidSchedule env σ, σ)
  | (b, r) :: rest, σ =>
    if σ.schedule r b ≠ -1 then backtrack env rest σ
    else
      let cands := sortedServiceIdxs env σ b r
      let out := tryCands env (fun σ' => backtrack env rest σ') b r cands σ
      if out.1 then out
      else
        if out.2.remainingResidentsPerBlock b > out.2.remainingSpotsPerBlock b then
          backtrack env rest (assignFreeBlock env b r out.2)
        else (false, out.2)

/-- `Scheduler.create` up to the final return: setup, variable order,
search. Returns the search result flag together with the final state. -/
def createFull (env : SchedInputs) (randomSeed : ℕ) (rsc : Option (ℕ → ℕ → Option ℤ))
    (randomize : Bool) (prng : ℕ → ℕ → ℚ) : Bool × SchedState :=
  let σ0 := searchStart env rsc
  backtrack env (blockResidentOrder env σ0 randomize (prng randomSeed)) σ0

/-- `Scheduler.create`. `randomSeed` is the `random_seed` construction
attribute (its only read is the re-seeding in `_block_resident_order`,
so it is passed to the one operation that consumes it); `g0` is the
state of the global random generator at call time; it is dead because `_block_resident_order` re-seeds the
generator from `self.random_seed` before any draw. On the verbose failure
path the source prints and returns `None`; otherwise it returns the
`schedule` property of the final state. -/
def create (env : SchedInputs) (randomSeed : ℕ) (rsc : Option (ℕ → ℕ → Option ℤ))
    (randomize verbose : Bool) (prng : ℕ → ℕ → ℚ) (_g0 : ℕ → ℚ) :
    Option (ℕ → ℕ → ℤ) :=
  let out := createFull env randomSeed rsc randomize prng
  if verbose = true ∧ out.1 = false then none
  else scheduleAccessor env out.2


/-! ## The engine transition relation

One `Step` per engine bookkeeping operation, guarded exactly as at its
call sites in `scheduler.py`: `_assign` and `_assign_free_block` are only
invoked on a pair whose entry is the unassigned sentinel (`backtrack`
skips any other pair, and the pre-pass runs on the fresh construction
state), and `_unassign` only reverts the `_assign` of the same triple,
so at its call site the entry holds that service. `_initialize_service_count`
and `_get_remaining` are the two remaining state writers of `create`. -/

inductive Step (env : SchedInputs) : SchedState → SchedState → Prop
  | assign (σ : SchedState) (b r s : ℕ) (hb : b < env.B) (hr : r < env.R)
      (hs : s < env.S) (h : σ.schedule r b = -1) : Step env σ (assign b r s σ)
  | unassign (σ : SchedState) (b r s : ℕ) (hb : b < env.B) (hr : r < env.R)
      (hs : s < env.S) (h : σ.schedule r b = (s : ℤ)) : Step env σ (unassign b r s σ)
  | free (σ : SchedState) (b r : ℕ) (hb : b < env.B) (hr : r < env.R)
      (h : σ.schedule r b = -1) : Step env σ (assignFreeBlock env b r σ)
  | seedCounts (σ : SchedState) (rsc : Option (ℕ → ℕ → Option ℤ)) :
      Step env σ (initServiceCount rsc σ)
  | recount (σ : SchedState) : Step env σ (getRemaining env σ)

/-- All states the engine can pass through from `σ`. -/
def ReachableFrom (env : SchedInputs) (σ τ : SchedState) : Prop :=
  Relation.ReflTransGen (Step env) σ τ

/-- All states the engine can pass through after construction. -/
def Reachable (env : SchedInputs) (σ : SchedState) : Prop :=
  ReachableFrom env (initState env) σ

/-- The mutual-inverse invariant of the two schedule views: a resident is
in a service's per-block set exactly when the resident view records that
service for that block. -/
def Views (env : SchedInputs) (σ : SchedState) : Prop :=
  ∀ r b s, s < env.S → (r ∈ σ.serviceSchedule s b ↔ σ.schedule r b = (s : ℤ))

theorem views_assign {env : SchedInputs} {σ : SchedState} (hI : Views env σ)
    {b r : ℕ} (s : ℕ) (h : σ.schedule r b = -1) : Views env (assign b r s σ) := by
  intro r' b' s' hs'
  have base := hI r' b' s' hs'
  simp only [assign]
  split_ifs with hsb hrb hrb
  · obtain ⟨rfl, rfl⟩ := hsb
    obtain ⟨rfl, -⟩ := hrb
    simp
  · obtain ⟨rfl, rfl⟩ := hsb
    have hr' : r' ≠ r := fun hc => hrb ⟨hc, rfl⟩
    simp only [Finset.mem_insert, hr', false_or]
    exact base
  · obtain ⟨rfl, rfl⟩ := hrb
    have hss : s' ≠ s := fun hc => hsb ⟨hc, rfl⟩
    rw [base, h]
    constructor <;> intro hx <;> first
    | exact hx.elim
    | exact absurd hx (by omega)
  · exact base

theorem views_unassign {env : SchedInputs} {σ : SchedState} (hI : Views env σ)
    {b r s : ℕ} (h : σ.schedule r b = (s : ℤ)) : Views env (unassign b r s σ) := by
  intro r' b' s' hs'
  have base := hI r' b' s' hs'
  simp only [unassign]
  split_ifs with hsb hrb hrb
  · obtain ⟨rfl, rfl⟩ := hsb
    obtain ⟨rfl, -⟩ := hrb
    simp
  · obtain ⟨rfl, rfl⟩ := hsb
    have hr' : r' ≠ r := fun hc => hrb ⟨hc, rfl⟩
    rw [Finset.mem_erase]
    simp only [hr', ne_eq, not_false_eq_true, true_and]
    exact base
  · obtain ⟨rfl, rfl⟩ := hrb
    have hss : s' ≠ s := fun hc => hsb ⟨hc, rfl⟩
    rw [base, h]
    constructor <;> intro hx <;> first
    | exact hx.elim
    | exact absurd hx (by omega)
  · exact base

theorem views_free {env : SchedInputs} {σ : SchedState} (hI : Views env σ)
    {b r : ℕ} (h : σ.schedule r b = -1) : Views env (assignFreeBlock env b r σ) := by
  intro r' b' s' hs'
  have base := hI r' b' s' hs'
  simp only [assignFreeBlock]
  split_ifs with hrb
  · obtain ⟨rfl, rfl⟩ := hrb
    rw [base, h]
    have hlt : (s' : ℤ) < (env.S : ℤ) := by exact_mod_cast hs'
    constructor <;> intro hx <;> first
    | exact hx.elim
    | exact absurd hx (by omega)
  · exact base

theorem views_step {env : SchedInputs} {σ τ : SchedState} (hstep : Step env σ τ)
    (hI : Views env σ) : Views env τ := by
  cases hstep with
  | assign b r s hb hr hs h => exact views_assign hI s h
  | unassign b r s hb hr hs h => exact views_unassign hI h
  | free b r hb hr h => exact views_free hI h
  | seedCounts rsc => cases rsc <;> exact hI
  | recount => exact hI

theorem views_reachableFrom {env : SchedInputs} {σ τ : SchedState}
    (hreach : ReachableFrom env σ τ) (hI : Views env σ) : Views env τ := by
  induction hreach with
  | refl => exact hI
  | tail _ hstep ih => exact views_step hstep ih

/-! ## Characterizing the pre-search states -/

theorem prepass_serviceSchedule (env : SchedInputs) (σ : SchedState) :
    (putRisingChiefsOnPseudoElective env σ).serviceSchedule = σ.serviceSchedule := by
  unfold putRisingChiefsOnPseudoElective
  generalize List.range env.R = L
  induction L generalizing σ with
  | nil => rfl
  | cons a L ih =>
      rw [List.foldl_cons, ih]
      by_cases ha : (env.res a).isRisingChief <;> simp [ha, assignFreeBlock]

theorem prepass_residentServiceCount (env : SchedInputs) (σ : SchedState) :
    (putRisingChiefsOnPseudoElective env σ).residentServiceCount = σ.residentServiceCount := by
  unfold putRisingChiefsOnPseudoElective
  generalize List.range env.R = L
  induction L generalizing σ with
  | nil => rfl
  | cons a L ih =>
      rw [List.foldl_cons, ih]
      by_cases ha : (env.res a).isRisingChief <;> simp [ha, assignFreeBlock]

theorem prepass_schedule_aux (env : SchedInputs) (L : List ℕ) (σ : SchedState) (r b : ℕ) :
    (L.foldl (fun σ' r' =>
        if (env.res r').isRisingChief = true then assignFreeBlock env (env.B - 1) r' σ' else σ')
      σ).schedule r b =
      if r ∈ L ∧ (env.res r).isRisingChief = true ∧ b = env.B - 1 then (env.S : ℤ)
      else σ.schedule r b := by
  induction L generalizing σ with
  | nil => simp
  | cons a L ih =>
      rw [List.foldl_cons, ih]
      by_cases h1 : r ∈ L ∧ (env.res r).isRisingChief = true ∧ b = env.B - 1
      · rw [if_pos h1, if_pos ⟨List.mem_cons_of_mem a h1.1, h1.2⟩]
      · rw [if_neg h1]
        by_cases h3 : (env.res a).isRisingChief = true
        · rw [if_pos h3]
          show (if r = a ∧ b = env.B - 1 then (env.S : ℤ) else σ.schedule r b) = _
          by_cases h4 : r = a ∧ b = env.B - 1
          · rw [if_pos h4,
              if_pos ⟨List.mem_cons.mpr (Or.inl h4.1), by rw [h4.1]; exact h3, h4.2⟩]
          · rw [if_neg h4, if_neg (fun hc => by
              rcases List.mem_cons.mp hc.1 with he | hm
              · exact h4 ⟨he, hc.2.2⟩
              · exact h1 ⟨hm, hc.2⟩)]
        · rw [if_neg h3, if_neg (fun hc => by
            rcases List.mem_cons.mp hc.1 with he | hm
            · exact h3 (he ▸ hc.2.1)
            · exact h1 ⟨hm, hc.2⟩)]

theorem prepass_schedule (env : SchedInputs) (σ : SchedState) (r b : ℕ) :
    (putRisingChiefsOnPseudoElective env σ).schedule r b =
      if r < env.R ∧ (env.res r).isRisingChief = true ∧ b = env.B - 1 then (env.S : ℤ)
      else σ.schedule r b := by
  unfold putRisingChiefsOnPseudoElective
  rw [prepass_schedule_aux]
  by_cases hcond : r < env.R ∧ (env.res r).isRisingChief = true ∧ b = env.B - 1
  · rw [if_pos hcond, if_pos ⟨List.mem_range.mpr hcond.1, hcond.2⟩]
  · rw [if_neg hcond, if_neg (fun hc => hcond ⟨List.mem_range.mp hc.1, hc.2⟩)]

theorem searchStart_serviceSchedule (env : SchedInputs) (rsc : Option (ℕ → ℕ → Option ℤ)) :
    (searchStart env rsc).serviceSchedule = fun _ _ => (∅ : Finset ℕ) := by
  show (initServiceCount rsc (putRisingChiefsOnPseudoElective env (initState env))).serviceSchedule
      = fun _ _ => (∅ : Finset ℕ)
  cases rsc <;>
    simpa [initServiceCount] using prepass_serviceSchedule env (initState env)

theorem searchStart_schedule (env : SchedInputs) (rsc : Option (ℕ → ℕ → Option ℤ))
    (r b : ℕ) :
    (searchStart env rsc).schedule r b =
      if r < env.R ∧ (env.res r).isRisingChief = true ∧ b = env.B - 1 then (env.S : ℤ)
      else -1 := by
  show (initServiceCount rsc (putRisingChiefsOnPseudoElective env (initState env))).schedule r b = _
  have hsched :
      (initServiceCount rsc (putRisingChiefsOnPseudoElective env (initState env))).schedule
        = (putRisingChiefsOnPseudoElective env (initState env)).schedule := by
    cases rsc <;> rfl
  rw [hsched, prepass_schedule]
  rfl

theorem views_initState (env : SchedInputs) : Views env (initState env) := by
  intro r b s hs
  show r ∈ (∅ : Finset ℕ) ↔ (-1 : ℤ) = (s : ℤ)
  simp only [Finset.not_mem_empty, false_iff]
  omega

theorem views_searchStart (env : SchedInputs) (rsc : Option (ℕ → ℕ → Option ℤ)) :
    Views env (searchStart env rsc) := by
  intro r b s hs
  rw [searchStart_serviceSchedule, searchStart_schedule]
  simp only [Finset.not_mem_empty, false_iff]
  split_ifs with hc
  · have hlt : (s : ℤ) < (env.S : ℤ) := by exact_mod_cast hs
    omega
  · exact not_false

/-- C4. At every point outside the engine's internal assign/undo
transition — i.e. in every state reachable from construction through the
guarded engine operations — the resident view and the service view are
mutual inverses: resident `r` is a member of service `s`'s set for block
`b` iff the resident view records `s` at `(r, b)`; consequently an entry
holding the unassigned sentinel `-1` or the free/elective sentinel
`numServices` has no service-view membership. Each engine operation
(`_assign`, `_unassign`, `_assign_free_block`) preserves this
(`views_assign`, `views_unassign`, `views_free`). -/
theorem c4_views_mutual_inverse (env : SchedInputs) (σ : SchedState)
    (hreach : Reachable env σ) : Views env σ :=
  views_reachableFrom hreach (views_initState env)

/-- Witness for C4 at a concrete scheduler. -/
theorem c4_views_mutual_inverse_witness :
    Views ⟨[⟨true, 1, 1, 1, 2, 0, false⟩], [⟨2, false, false⟩], 2, 3⟩
      (initState ⟨[⟨true, 1, 1, 1, 2, 0, false⟩], [⟨2, false, false⟩], 2, 3⟩) :=
  c4_views_mutual_inverse _ _ Relation.ReflTransGen.refl

/-! ## The remaining-counter invariants -/

theorem card_filter_toNeg (n x : ℕ) (f g : ℕ → ℤ) (hx : x < n)
    (hfx : f x = -1) (hgx : g x ≠ -1) (h : ∀ y, y ≠ x → g y = f y) :
    ((Finset.range n).filter (fun y => g y = -1)).card + 1
      = ((Finset.range n).filter (fun y => f y = -1)).card := by
  have hset : (Finset.range n).filter (fun y => g y = -1)
      = ((Finset.range n).filter (fun y => f y = -1)).erase x := by
    ext y
    simp only [Finset.mem_filter, Finset.mem_erase, Finset.mem_range]
    by_cases hyx : y = x
    · subst hyx
      simp [hgx, hfx]
    · rw [h y hyx]
      tauto
  have hmem : x ∈ (Finset.range n).filter (fun y => f y = -1) :=
    Finset.mem_filter.mpr ⟨Finset.mem_range.mpr hx, by simpa using hfx⟩
  rw [hset, Finset.card_erase_of_mem hmem]
  have : 1 ≤ ((Finset.range n).filter (fun y => f y = -1)).card :=
    Finset.card_pos.mpr ⟨x, hmem⟩
  omega

theorem card_filter_fromNeg (n x : ℕ) (f g : ℕ → ℤ) (hx : x < n)
    (hfx : f x ≠ -1) (hgx : g x = -1) (h : ∀ y, y ≠ x → g y = f y) :
    ((Finset.range n).filter (fun y => g y = -1)).card
      = ((Finset.range n).filter (fun y => f y = -1)).card + 1 := by
  have hset : (Finset.range n).filter (fun y => g y = -1)
      = insert x ((Finset.range n).filter (fun y => f y = -1)) := by
    ext y
    simp only [Finset.mem_filter, Finset.mem_insert, Finset.mem_range]
    by_cases hyx : y = x
    · subst hyx
      simp [hgx, hx]
    · rw [h y hyx]
      simp only [hyx, false_or]
  have hnot : x ∉ (Finset.range n).filter (fun y => f y = -1) := by
    simp only [Finset.mem_filter, Finset.mem_range]
    exact fun hc => hfx hc.2
  rw [hset, Finset.card_insert_of_not_mem hnot]

/-- `remaining_residents_per_block[b]` literally counts the residents whose
block-`b` entry is still the unassigned sentinel. -/
def CountersRes (env : SchedInputs) (σ : SchedState) : Prop :=
  ∀ b, b < env.B →
    σ.remainingResidentsPerBlock b
      = (((Finset.range env.R).filter (fun r => σ.schedule r b = -1)).card : ℤ)

/-- `remaining_blocks_per_resident[r]` counts resident `r`'s unassigned
blocks, inflated by `(num_years - year + 1) * num_blocks_per_year`. -/
def BlocksPerRes (env : SchedInputs) (σ : SchedState) : Prop :=
  ∀ r, r < env.R →
    σ.remainingBlocksPerResident r
      = (((Finset.range env.B).filter (fun b => σ.schedule r b = -1)).card : ℤ)
        + (env.numYears - (env.res r).year + 1) * (env.B : ℤ)

/-- `remaining_spots_per_block[b]` is the total minimum staffing minus the
current total occupancy of block `b`. -/
def SpotsTotal (env : SchedInputs) (σ : SchedState) : Prop :=
  ∀ b, b < env.B →
    σ.remainingSpotsPerBlock b
      = (∑ s ∈ Finset.range env.S, (env.svc s).minSeniorsPerBlock)
        - ∑ s ∈ Finset.range env.S, ((σ.serviceSchedule s b).card : ℤ)

theorem countersRes_assign {env : SchedInputs} {σ : SchedState} (hC : CountersRes env σ)
    {b r : ℕ} (s : ℕ) (hb : b < env.B) (hr : r < env.R)
    (hentry : σ.schedule r b = -1) : CountersRes env (assign b r s σ) := by
  intro b' hb'
  show (if b' = b then σ.remainingResidentsPerBlock b' - 1
      else σ.remainingResidentsPerBlock b') = _
  by_cases hbb : b' = b
  · subst hbb
    rw [if_pos rfl, hC b' hb']
    have hcard := card_filter_toNeg env.R r (fun r' => σ.schedule r' b')
      (fun r' => (assign b' r s σ).schedule r' b') hr hentry
      (by show ¬((if r = r ∧ b' = b' then (s : ℤ) else σ.schedule r b') = -1)
          rw [if_pos ⟨rfl, rfl⟩]; omega)
      (fun y hy => by
        show (if y = r ∧ b' = b' then (s : ℤ) else σ.schedule y b') = σ.schedule y b'
        rw [if_neg (fun hc => hy hc.1)])
    beta_reduce at hcard
    omega
  · rw [if_neg hbb, hC b' hb']
    congr 2
    apply Finset.filter_congr
    intro y _
    rw [show (assign b r s σ).schedule y b' = σ.schedule y b' from
      if_neg (fun hc => hbb hc.2)]

theorem countersRes_unassign {env : SchedInputs} {σ : SchedState} (hC : CountersRes env σ)
    {b r s : ℕ} (hb : b < env.B) (hr : r < env.R)
    (hentry : σ.schedule r b = (s : ℤ)) : CountersRes env (unassign b r s σ) := by
  intro b' hb'
  show (if b' = b then σ.remainingResidentsPerBlock b' + 1
      else σ.remainingResidentsPerBlock b') = _
  by_cases hbb : b' = b
  · subst hbb
    rw [if_pos rfl, hC b' hb']
    have hcard := card_filter_fromNeg env.R r (fun r' => σ.schedule r' b')
      (fun r' => (unassign b' r s σ).schedule r' b') hr
      (by show σ.schedule r b' ≠ -1
          rw [hentry]; omega)
      (by show (if r = r ∧ b' = b' then (-1 : ℤ) else σ.schedule r b') = -1
          rw [if_pos ⟨rfl, rfl⟩])
      (fun y hy => by
        show (if y = r ∧ b' = b' then (-1 : ℤ) else σ.schedule y b') = σ.schedule y b'
        rw [if_neg (fun hc => hy hc.1)])
    beta_reduce at hcard
    omega
  · rw [if_neg hbb, hC b' hb']
    congr 2
    apply Finset.filter_congr
    intro y _
    rw [show (unassign b r s σ).schedule y b' = σ.schedule y b' from
      if_neg (fun hc => hbb hc.2)]

theorem countersRes_free {env : SchedInputs} {σ : SchedState} (hC : CountersRes env σ)
    {b r : ℕ} (hb : b < env.B) (hr : r < env.R)
    (hentry : σ.schedule r b = -1) : CountersRes env (assignFreeBlock env b r σ) := by
  intro b' hb'
  show (if b' = b then σ.remainingResidentsPerBlock b' - 1
      else σ.remainingResidentsPerBlock b') = _
  by_cases hbb : b' = b
  · subst hbb
    rw [if_pos rfl, hC b' hb']
    have hcard := card_filter_toNeg env.R r (fun r' => σ.schedule r' b')
      (fun r' => (assignFreeBlock env b' r σ).schedule r' b') hr hentry
      (by show ¬((if r = r ∧ b' = b' then (env.S : ℤ) else σ.schedule r b') = -1)
          rw [if_pos ⟨rfl, rfl⟩]; omega)
      (fun y hy => by
        show (if y = r ∧ b' = b' then (env.S : ℤ) else σ.schedule y b') = σ.schedule y b'
        rw [if_neg (fun hc => hy hc.1)])
    beta_reduce at hcard
    omega
  · rw [if_neg hbb, hC b' hb']
    congr 2
    apply Finset.filter_congr
    intro y _
    rw [show (assignFreeBlock env b r σ).schedule y b' = σ.schedule y b' from
      if_neg (fun hc => hbb hc.2)]

theorem blocksPerRes_assign {env : SchedInputs} {σ : SchedState} (hB : BlocksPerRes env σ)
    {b r : ℕ} (s : ℕ) (hb : b < env.B) (hr : r < env.R)
    (hentry : σ.schedule r b = -1) : BlocksPerRes env (assign b r s σ) := by
  intro r' hr'
  show (if r' = r then σ.remainingBlocksPerResident r' - 1
      else σ.remainingBlocksPerResident r') = _
  by_cases hrr : r' = r
  · subst hrr
    rw [if_pos rfl, hB r' hr']
    have hcard := card_filter_toNeg env.B b (fun b' => σ.schedule r' b')
      (fun b' => (assign b r' s σ).schedule r' b') hb hentry
      (by show ¬((if r' = r' ∧ b = b then (s : ℤ) else σ.schedule r' b) = -1)
          rw [if_pos ⟨rfl, rfl⟩]; omega)
      (fun y hy => by
        show (if r' = r' ∧ y = b then (s : ℤ) else σ.schedule r' y) = σ.schedule r' y
        rw [if_neg (fun hc => hy hc.2)])
    beta_reduce at hcard
    omega
  · rw [if_neg hrr, hB r' hr']
    have hseq : ∀ y, (assign b r s σ).schedule r' y = σ.schedule r' y :=
      fun y => if_neg (fun hc => hrr hc.1)
    congr 3
    apply Finset.filter_congr
    intro y _
    rw [hseq y]

theorem blocksPerRes_unassign {env : SchedInputs} {σ : SchedState} (hB : BlocksPerRes env σ)
    {b r s : ℕ} (hb : b < env.B) (hr : r < env.R)
    (hentry : σ.schedule r b = (s : ℤ)) : BlocksPerRes env (unassign b r s σ) := by
  intro r' hr'
  show (if r' = r then σ.remainingBlocksPerResident r' + 1
      else σ.remainingBlocksPerResident r') = _
  by_cases hrr : r' = r
  · subst hrr
    rw [if_pos rfl, hB r' hr']
    have hcard := card_filter_fromNeg env.B b (fun b' => σ.schedule r' b')
      (fun b' => (unassign b r' s σ).schedule r' b') hb
      (by show σ.schedule r' b ≠ -1
          rw [hentry]; omega)
      (by show (if r' = r' ∧ b = b then (-1 : ℤ) else σ.schedule r' b) = -1
          rw [if_pos ⟨rfl, rfl⟩])
      (fun y hy => by
        show (if r' = r' ∧ y = b then (-1 : ℤ) else σ.schedule r' y) = σ.schedule r' y
        rw [if_neg (fun hc => hy hc.2)])
    beta_reduce at hcard
    omega
  · rw [if_neg hrr, hB r' hr']
    have hseq : ∀ y, (unassign b r s σ).schedule r' y = σ.schedule r' y :=
      fun y => if_neg (fun hc => hrr hc.1)
    congr 3
    apply Finset.filter_congr
    intro y _
    rw [hseq y]

theorem blocksPerRes_free {env : SchedInputs} {σ : SchedState} (hB : BlocksPerRes env σ)
    {b r : ℕ} (hb : b < env.B) (hr : r < env.R)
    (hentry : σ.schedule r b = -1) : BlocksPerRes env (assignFreeBlock env b r σ) := by
  intro r' hr'
  show (if r' = r then σ.remainingBlocksPerResident r' - 1
      else σ.remainingBlocksPerResident r') = _
  by_cases hrr : r' = r
  · subst hrr
    rw [if_pos rfl, hB r' hr']
    have hcard := card_filter_toNeg env.B b (fun b' => σ.schedule r' b')
      (fun b' => (assignFreeBlock env b r' σ).schedule r' b') hb hentry
      (by show ¬((if r' = r' ∧ b = b then (env.S : ℤ) else σ.schedule r' b) = -1)
          rw [if_pos ⟨rfl, rfl⟩]; omega)
      (fun y hy => by
        show (if r' = r' ∧ y = b then (env.S : ℤ) else σ.schedule r' y) = σ.schedule r' y
        rw [if_neg (fun hc => hy hc.2)])
    beta_reduce at hcard
    omega
  · rw [if_neg hrr, hB r' hr']
    have hseq : ∀ y, (assignFreeBlock env b r σ).schedule r' y = σ.schedule r' y :=
      fun y => if_neg (fun hc => hrr hc.1)
    congr 3
    apply Finset.filter_congr
    intro y _
    rw [hseq y]

theorem spotsTotal_assign {env : SchedInputs} {σ : SchedState} (hST : SpotsTotal env σ)
    {b r s : ℕ} (hs : s < env.S)
    (hview : r ∉ σ.serviceSchedule s b) : SpotsTotal env (assign b r s σ) := by
  intro b' hb'
  show (if b' = b then σ.remainingSpotsPerBlock b' - 1 else σ.remainingSpotsPerBlock b') = _
  by_cases hbb : b' = b
  · subst hbb
    rw [if_pos rfl, hST b' hb']
    have hpoint : ∀ s' ∈ Finset.range env.S,
        (((assign b' r s σ).serviceSchedule s' b').card : ℤ)
          = ((σ.serviceSchedule s' b').card : ℤ) + if s' = s then 1 else 0 := by
      intro s' _
      by_cases hss : s' = s
      · subst hss
        rw [if_pos rfl,
          show (assign b' r s' σ).serviceSchedule s' b' = insert r (σ.serviceSchedule s' b')
            from if_pos ⟨rfl, rfl⟩,
          Finset.card_insert_of_not_mem hview]
        push_cast
        ring
      · rw [if_neg hss,
          show (assign b' r s σ).serviceSchedule s' b' = σ.serviceSchedule s' b'
            from if_neg (fun hc => hss hc.1)]
        ring
    rw [Finset.sum_congr rfl hpoint, Finset.sum_add_distrib,
      Finset.sum_ite_eq' (Finset.range env.S) s (fun _ => (1 : ℤ)),
      if_pos (Finset.mem_range.mpr hs)]
    ring
  · rw [if_neg hbb, hST b' hb']
    have hpoint : ∀ s' ∈ Finset.range env.S,
        (((assign b r s σ).serviceSchedule s' b').card : ℤ)
          = ((σ.serviceSchedule s' b').card : ℤ) := by
      intro s' _
      rw [show (assign b r s σ).serviceSchedule s' b' = σ.serviceSchedule s' b'
        from if_neg (fun hc => hbb hc.2)]
    rw [Finset.sum_congr rfl hpoint]

theorem spotsTotal_unassign {env : SchedInputs} {σ : SchedState} (hST : SpotsTotal env σ)
    {b r s : ℕ} (hs : s < env.S)
    (hview : r ∈ σ.serviceSchedule s b) : SpotsTotal env (unassign b r s σ) := by
  intro b' hb'
  show (if b' = b then σ.remainingSpotsPerBlock b' + 1 else σ.remainingSpotsPerBlock b') = _
  by_cases hbb : b' = b
  · subst hbb
    rw [if_pos rfl, hST b' hb']
    have hpoint : ∀ s' ∈ Finset.range env.S,
        (((unassign b' r s σ).serviceSchedule s' b').card : ℤ)
          = ((σ.serviceSchedule s' b').card : ℤ) - if s' = s then 1 else 0 := by
      intro s' _
      by_cases hss : s' = s
      · subst hss
        rw [if_pos rfl,
          show (unassign b' r s' σ).serviceSchedule s' b' = (σ.serviceSchedule s' b').erase r
            from if_pos ⟨rfl, rfl⟩,
          Finset.card_erase_of_mem hview,
          Nat.cast_sub (Nat.one_le_iff_ne_zero.mpr
            (Finset.card_ne_zero_of_mem hview))]
        push_cast
        ring
      · rw [if_neg hss,
          show (unassign b' r s σ).serviceSchedule s' b' = σ.serviceSchedule s' b'
            from if_neg (fun hc => hss hc.1)]
        ring
    rw [Finset.sum_congr rfl hpoint, Finset.sum_sub_distrib,
      Finset.sum_ite_eq' (Finset.range env.S) s (fun _ => (1 : ℤ)),
      if_pos (Finset.mem_range.mpr hs)]
    ring
  · rw [if_neg hbb, hST b' hb']
    have hpoint : ∀ s' ∈ Finset.range env.S,
        (((unassign b r s σ).serviceSchedule s' b').card : ℤ)
          = ((σ.serviceSchedule s' b').card : ℤ) := by
      intro s' _
      rw [show (unassign b r s σ).serviceSchedule s' b' = σ.serviceSchedule s' b'
        from if_neg (fun hc => hbb hc.2)]
    rw [Finset.sum_congr rfl hpoint]

theorem spotsTotal_free {env : SchedInputs} {σ : SchedState} (hST : SpotsTotal env σ)
    {b r : ℕ} : SpotsTotal env (assignFreeBlock env b r σ) :=
  fun b' hb' => hST b' hb'

/-! ## Step preservation of the per-resident counter, and claim C10 -/

theorem blocksPerRes_getRemaining (env : SchedInputs) (σ : SchedState) :
    BlocksPerRes env (getRemaining env σ) :=
  fun _ _ => rfl

theorem blocksPerRes_step {env : SchedInputs} {σ τ : SchedState} (hstep : Step env σ τ)
    (hB : BlocksPerRes env σ) : BlocksPerRes env τ := by
  cases hstep with
  | assign b r s hb hr hs h => exact blocksPerRes_assign hB s hb hr h
  | unassign b r s hb hr hs h => exact blocksPerRes_unassign hB hb hr h
  | free b r hb hr h => exact blocksPerRes_free hB hb hr h
  | seedCounts rsc => cases rsc <;> exact hB
  | recount => exact blocksPerRes_getRemaining env σ

theorem blocksPerRes_reachableFrom {env : SchedInputs} {σ τ : SchedState}
    (hreach : ReachableFrom env σ τ) (hB : BlocksPerRes env σ) : BlocksPerRes env τ := by
  induction hreach with
  | refl => exact hB
  | tail _ hstep ih => exact blocksPerRes_step hstep ih

/-- C10. In every state the search can reach from the `create` setup
state, when every resident's program year lies in `[1, num_years]` and
there is at least one block per year, `remaining_blocks_per_resident[r]`
stays strictly positive for every resident `r` (it carries the inflation
term `(num_years - year + 1) * num_blocks_per_year` on top of the count
of unassigned blocks), so the division by it in the pace-deviation
component of `_service_sort_key` never divides by zero. -/
theorem c10_remaining_blocks_positive (env : SchedInputs)
    (rsc : Option (ℕ → ℕ → Option ℤ)) (σ : SchedState)
    (hB1 : 1 ≤ env.B)
    (hyears : ∀ r, r < env.R → 1 ≤ (env.res r).year ∧ (env.res r).year ≤ env.numYears)
    (hreach : ReachableFrom env (searchStart env rsc) σ) :
    ∀ r, r < env.R →
      0 < σ.remainingBlocksPerResident r ∧ σ.remainingBlocksPerResident r ≠ 0 := by
  have hinv : BlocksPerRes env σ :=
    blocksPerRes_reachableFrom hreach (blocksPerRes_getRemaining env _)
  intro r hr
  rw [hinv r hr]
  obtain ⟨hy1, hy2⟩ := hyears r hr
  have h1 : (1 : ℤ) ≤ env.numYears - (env.res r).year + 1 := by omega
  have h2 : (1 : ℤ) ≤ (env.B : ℤ) := by exact_mod_cast hB1
  have hmul : (1 : ℤ) * 1 ≤ (env.numYears - (env.res r).year + 1) * (env.B : ℤ) :=
    mul_le_mul h1 h2 (by omega) (by omega)
  have hcast : (0 : ℤ) ≤
      (((Finset.range env.B).filter (fun b => σ.schedule r b = -1)).card : ℤ) := by
    exact_mod_cast Nat.zero_le _
  constructor <;> omega

/-- Witness for C10: two blocks, one PGY-2 resident, three program years;
the counter is strictly positive at the search-start state itself. -/
theorem c10_remaining_blocks_positive_witness :
    0 < (searchStart ⟨[⟨true, 1, 1, 1, 2, 0, false⟩], [⟨2, false, false⟩], 2, 3⟩
        none).remainingBlocksPerResident 0 ∧
      (searchStart ⟨[⟨true, 1, 1, 1, 2, 0, false⟩], [⟨2, false, false⟩], 2, 3⟩
        none).remainingBlocksPerResident 0 ≠ 0 :=
  c10_remaining_blocks_positive _ none _ (by decide)
    (fun r hr => by
      have h1 : r < 1 := hr
      have h0 : r = 0 := by omega
      subst h0
      exact ⟨by decide, by decide⟩)
    Relation.ReflTransGen.refl 0 (by decide)

/-! ## The rising-chief invariant, and claim C8 -/

/-- Every rising chief's final-block entry is the explicit free sentinel. -/
def ChiefFree (env : SchedInputs) (σ : SchedState) : Prop :=
  ∀ r, r < env.R → (env.res r).isRisingChief = true →
    σ.schedule r (env.B - 1) = (env.S : ℤ)

theorem chiefFree_step {env : SchedInputs} {σ τ : SchedState} (hstep : Step env σ τ)
    (hCF : ChiefFree env σ) : ChiefFree env τ := by
  cases hstep with
  | assign b r' s hb hr' hs h =>
      intro r hr hchief
      show (if r = r' ∧ env.B - 1 = b then (s : ℤ) else σ.schedule r (env.B - 1)) = _
      by_cases hc : r = r' ∧ env.B - 1 = b
      · exfalso
        obtain ⟨rfl, hbeq⟩ := hc
        rw [← hbeq, hCF r hr hchief] at h
        omega
      · rw [if_neg hc]
        exact hCF r hr hchief
  | unassign b r' s hb hr' hs h =>
      intro r hr hchief
      show (if r = r' ∧ env.B - 1 = b then (-1 : ℤ) else σ.schedule r (env.B - 1)) = _
      by_cases hc : r = r' ∧ env.B - 1 = b
      · exfalso
        obtain ⟨rfl, hbeq⟩ := hc
        rw [← hbeq, hCF r hr hchief] at h
        have : (s : ℤ) < (env.S : ℤ) := by exact_mod_cast hs
        omega
      · rw [if_neg hc]
        exact hCF r hr hchief
  | free b r' hb hr' h =>
      intro r hr hchief
      show (if r = r' ∧ env.B - 1 = b then (env.S : ℤ) else σ.schedule r (env.B - 1)) = _
      by_cases hc : r = r' ∧ env.B - 1 = b
      · rw [if_pos hc]
      · rw [if_neg hc]
        exact hCF r hr hchief
  | seedCounts rsc =>
      cases rsc <;> exact hCF
  | recount => exact hCF

theorem chiefFree_reachableFrom {env : SchedInputs} {σ τ : SchedState}
    (hreach : ReachableFrom env σ τ) (hCF : ChiefFree env σ) : ChiefFree env τ := by
  induction hreach with
  | refl => exact hCF
  | tail _ hstep ih => exact chiefFree_step hstep ih

theorem chiefFree_prepass (env : SchedInputs) :
    ChiefFree env (putRisingChiefsOnPseudoElective env (initState env)) := by
  intro r hr hchief
  rw [prepass_schedule]
  exact if_pos ⟨hr, hchief, rfl⟩

theorem views_prepass (env : SchedInputs) :
    Views env (putRisingChiefsOnPseudoElective env (initState env)) := by
  intro r b s hs
  rw [show (putRisingChiefsOnPseudoElective env (initState env)).serviceSchedule
      = (initState env).serviceSchedule from prepass_serviceSchedule env _]
  show r ∈ (∅ : Finset ℕ) ↔ _
  simp only [Finset.not_mem_empty, false_iff]
  rw [prepass_schedule]
  have hlt : (s : ℤ) < (env.S : ℤ) := by exact_mod_cast hs
  split_ifs with hc
  · omega
  · show ¬(-1 : ℤ) = (s : ℤ)
    omega

/-- C8. From the rising-chief pre-pass onward — in every state the engine
can reach from the pre-passed construction state, whether the search
succeeds or fails — every rising chief's final-block entry is the
explicit free/elective sentinel `numServices`, and no service has that
chief in its final-block set. -/
theorem c8_rising_chief_free_final_block (env : SchedInputs) (σ : SchedState)
    (hreach : ReachableFrom env (putRisingChiefsOnPseudoElective env (initState env)) σ) :
    ∀ r, r < env.R → (env.res r).isRisingChief = true →
      σ.schedule r (env.B - 1) = (env.S : ℤ) ∧
        ∀ s, s < env.S → r ∉ σ.serviceSchedule s (env.B - 1) := by
  have hCF : ChiefFree env σ := chiefFree_reachableFrom hreach (chiefFree_prepass env)
  have hV : Views env σ := views_reachableFrom hreach (views_prepass env)
  intro r hr hchief
  refine ⟨hCF r hr hchief, fun s hs hmem => ?_⟩
  rw [hV r (env.B - 1) s hs] at hmem
  rw [hCF r hr hchief] at hmem
  have hlt : (s : ℤ) < (env.S : ℤ) := by exact_mod_cast hs
  omega

/-- Witness for C8: one service, one rising chief (year 3), two blocks;
evaluated at the pre-passed state itself. -/
theorem c8_rising_chief_free_final_block_witness :
    (putRisingChiefsOnPseudoElective
        ⟨[⟨true, 1, 1, 1, 2, 0, false⟩], [⟨3, false, true⟩], 2, 3⟩
        (initState ⟨[⟨true, 1, 1, 1, 2, 0, false⟩], [⟨3, false, true⟩], 2, 3⟩)).schedule
        0 1 = 1 ∧
      0 ∉ (putRisingChiefsOnPseudoElective
        ⟨[⟨true, 1, 1, 1, 2, 0, false⟩], [⟨3, false, true⟩], 2, 3⟩
        (initState ⟨[⟨true, 1, 1, 1, 2, 0, false⟩], [⟨3, false, true⟩], 2, 3⟩)).serviceSchedule
        0 1 := by
  have h := c8_rising_chief_free_final_block
    ⟨[⟨true, 1, 1, 1, 2, 0, false⟩], [⟨3, false, true⟩], 2, 3⟩ _
    Relation.ReflTransGen.refl 0 (by decide) (by decide)
  exact ⟨h.1, h.2 0 (by decide)⟩

/-! ## Claim C3: assign/undo bookkeeping symmetry -/

/-- C3 (amended). In every reachable engine state in which the
`(block, resident)` pair is still unassigned — which is the case at every
point where the engine invokes `_assign` — performing `_assign` followed
by `_unassign` on the same `(block, resident, service)` triple restores
every remaining counter, the resident-service counts, and both views to
their exact pre-assign values. (As originally stated, over *every*
triple, the claim fails when the pair already holds an assignment: see
the counterexample.) -/
theorem c3_amended (env : SchedInputs) (σ : SchedState) (hreach : Reachable env σ)
    (b r s : ℕ) (hs : s < env.S) (hentry : σ.schedule r b = -1) :
    unassign b r s (assign b r s σ) = σ := by
  have hV : Views env σ := views_reachableFrom hreach (views_initState env)
  have hview : r ∉ σ.serviceSchedule s b := by
    rw [hV r b s hs, hentry]
    omega
  apply SchedState.ext_iff_fields
  · funext r' b'
    show (if r' = r ∧ b' = b then (-1 : ℤ)
      else if r' = r ∧ b' = b then (s : ℤ) else σ.schedule r' b') = _
    by_cases hc : r' = r ∧ b' = b
    · obtain ⟨rfl, rfl⟩ := hc
      rw [if_pos ⟨rfl, rfl⟩, hentry]
    · rw [if_neg hc, if_neg hc]
  · funext s' b'
    show (if s' = s ∧ b' = b
        then (if s' = s ∧ b' = b then insert r (σ.serviceSchedule s' b')
          else σ.serviceSchedule s' b').erase r
        else if s' = s ∧ b' = b then insert r (σ.serviceSchedule s' b')
          else σ.serviceSchedule s' b') = _
    by_cases hc : s' = s ∧ b' = b
    · obtain ⟨rfl, rfl⟩ := hc
      rw [if_pos ⟨rfl, rfl⟩, if_pos ⟨rfl, rfl⟩, Finset.erase_insert hview]
    · rw [if_neg hc, if_neg hc]
  · funext r' s'
    show (if r' = r ∧ s' = s
        then (if r' = r ∧ s' = s then σ.residentServiceCount r' s' + 1
          else σ.residentServiceCount r' s') - 1
        else if r' = r ∧ s' = s then σ.residentServiceCount r' s' + 1
          else σ.residentServiceCount r' s') = _
    by_cases hc : r' = r ∧ s' = s
    · rw [if_pos hc, if_pos hc]
      ring
    · rw [if_neg hc, if_neg hc]
  · funext b'
    show (if b' = b
        then (if b' = b then σ.remainingResidentsPerBlock b' - 1
          else σ.remainingResidentsPerBlock b') + 1
        else if b' = b then σ.remainingResidentsPerBlock b' - 1
          else σ.remainingResidentsPerBlock b') = _
    by_cases hc : b' = b
    · rw [if_pos hc, if_pos hc]; ring
    · rw [if_neg hc, if_neg hc]
  · funext r'
    show (if r' = r
        then (if r' = r then σ.remainingBlocksPerResident r' - 1
          else σ.remainingBlocksPerResident r') + 1
        else if r' = r then σ.remainingBlocksPerResident r' - 1
          else σ.remainingBlocksPerResident r') = _
    by_cases hc : r' = r
    · rw [if_pos hc, if_pos hc]; ring
    · rw [if_neg hc, if_neg hc]
  · funext s' b'
    show (if s' = s ∧ b' = b
        then (if s' = s ∧ b' = b then σ.remainingSpotsPerServicePerBlock s' b' - 1
          else σ.remainingSpotsPerServicePerBlock s' b') + 1
        else if s' = s ∧ b' = b then σ.remainingSpotsPerServicePerBlock s' b' - 1
          else σ.remainingSpotsPerServicePerBlock s' b') = _
    by_cases hc : s' = s ∧ b' = b
    · rw [if_pos hc, if_pos hc]; ring
    · rw [if_neg hc, if_neg hc]
  · funext b'
    show (if b' = b
        then (if b' = b then σ.remainingSpotsPerBlock b' - 1
          else σ.remainingSpotsPerBlock b') + 1
        else if b' = b then σ.remainingSpotsPerBlock b' - 1
          else σ.remainingSpotsPerBlock b') = _
    by_cases hc : b' = b
    · rw [if_pos hc, if_pos hc]; ring
    · rw [if_neg hc, if_neg hc]

/-- The inputs of the C3 counterexample: one resident (PGY-3), two
services, one block. -/
def envC3 : SchedInputs :=
  ⟨[⟨true, 1, 1, 1, 2, 0, false⟩, ⟨false, 1, 1, 1, 2, 0, false⟩],
    [⟨3, false, false⟩], 1, 3⟩

/-- C3 counterexample. In the reachable state that has `(block 0,
resident 0)` already assigned to service 0, performing `_assign` then
`_unassign` with service 1 on that same pair does *not* restore the
pre-assign state (the entry ends at the unassigned sentinel, not at
service 0, and resident 0 is left in service 0's set with no
resident-view record): the claim quantified over every triple fails. -/
theorem c3_counterexample :
    Reachable envC3 (assign 0 0 0 (initState envC3)) ∧
      unassign 0 0 1 (assign 0 0 1 (assign 0 0 0 (initState envC3)))
        ≠ assign 0 0 0 (initState envC3) := by
  constructor
  · exact Relation.ReflTransGen.single
      (Step.assign _ 0 0 0 (by decide) (by decide) (by decide) rfl)
  · intro h
    have hval := congrArg (fun σ' => σ'.schedule 0 0) h
    revert hval
    decide

/-- Witness for the amended C3 at a concrete reachable state. -/
theorem c3_amended_witness :
    unassign 0 0 1 (assign 0 0 1 (initState envC3)) = initState envC3 :=
  c3_amended envC3 (initState envC3) Relation.ReflTransGen.refl 0 0 1
    (by decide) rfl

/-! ## Claim C5: the senior-year core blackout rule -/

/-- The spec's reading of rule 5: the resident is in the penultimate
program year (`num_years - 1`), the block is the fixed late-year index
12, and the service is core. -/
def specSeniorCoreBlackout (env : SchedInputs) (b r s : ℕ) : Prop :=
  (env.res r).year = env.numYears - 1 ∧ b = 12 ∧ (env.svc s).isCore = true

/-- The inputs of the C5 counterexample: a three-year program (the
default implied by the tests and the senior-tier comments), a
penultimate-year (PGY-2) resident, a core service, 13 blocks. -/
def envC5 : SchedInputs :=
  ⟨[⟨true, 1, 1, 1, 2, 0, false⟩], [⟨2, false, false⟩], 13, 3⟩

/-- C5 counterexample. `third_year_last_block` hardcodes `year == 3`,
which is the *final* year of the three-year program, not the penultimate
one: for a penultimate-year (PGY-2) resident at block 12 on a core
service the spec predicate holds but the code predicate — and the whole
rule engine — reports no violation. -/
theorem c5_counterexample :
    specSeniorCoreBlackout envC5 12 0 0 ∧
      thirdYearLastBlock envC5 12 0 0 = false ∧
      anyRuleViolated envC5 (searchStart envC5 none) 12 0 0 = false := by
  refine ⟨⟨by decide, rfl, by decide⟩, by decide, by decide⟩

/-- C5 (amended). The rule reports a violation exactly when the
resident's program year is literally 3 and the block index is literally
12 and the candidate service is core (the hardcoded year equals the
penultimate year only in a four-year program, and is the final year
under the default three-year program); `_any_rule_violated` is true
whenever this predicate is true. -/
theorem c5_amended (env : SchedInputs) (σ : SchedState) (b r s : ℕ) :
    (thirdYearLastBlock env b r s = true ↔
      (b = 12 ∧ (env.res r).year = 3 ∧ (env.svc s).isCore = true))
    ∧ (thirdYearLastBlock env b r s = true → anyRuleViolated env σ b r s = true) := by
  constructor
  · simp [thirdYearLastBlock]
  · intro h
    simp only [anyRuleViolated, h, Bool.or_true]

/-- Witness for the amended C5: a PGY-3 resident at block 12 on a core
service is flagged by the rule engine. -/
theorem c5_amended_witness :
    anyRuleViolated ⟨[⟨true, 1, 1, 1, 2, 0, false⟩], [⟨3, false, false⟩], 13, 3⟩
      (searchStart ⟨[⟨true, 1, 1, 1, 2, 0, false⟩], [⟨3, false, false⟩], 13, 3⟩ none)
      12 0 0 = true :=
  (c5_amended _ _ 12 0 0).2 (by decide)

/-! ## Claim C1: the read-only schedule accessors -/

/-- C1 (amended). The `schedule` and `service_schedule` accessors return
the absent result exactly when the *current* occupancy of some
(service, block) pair violates that service's `[min, max]` staffing
bounds; in particular, immediately after construction they return the
absent result iff some service's bounds exclude the zero occupancy of
the fresh state (e.g. a positive minimum). (As originally stated —
absent *whenever* no successful search has completed, in particular
always absent right after construction — the claim fails when every
service's bounds admit zero occupancy: see the counterexample.) -/
theorem c1_amended (env : SchedInputs) (σ : SchedState) :
    (scheduleAccessor env σ = none ↔ isValidSchedule env σ = false)
    ∧ (serviceScheduleAccessor env σ = none ↔ isValidSchedule env σ = false)
    ∧ (isValidSchedule env (initState env) = true ↔
        ∀ s, s < env.S → ∀ b, b < env.B →
          (env.svc s).minSeniorsPerBlock ≤ 0 ∧
            0 ≤ (env.svc s).maxSeniorsPerBlock) := by
  refine ⟨?_, ?_, ?_⟩
  · cases hval : isValidSchedule env σ <;> simp [scheduleAccessor, hval]
  · cases hval : isValidSchedule env σ <;> simp [serviceScheduleAccessor, hval]
  · have hempty : ∀ s b : ℕ, (initState env).serviceSchedule s b = (∅ : Finset ℕ) :=
      fun s b => rfl
    simp only [isValidSchedule, List.all_eq_true, List.mem_range, decide_eq_true_eq,
      hempty, Finset.card_empty, Nat.cast_zero]

/-- Witness for the amended C1 at a concrete scheduler. -/
theorem c1_amended_witness :
    scheduleAccessor ⟨[⟨true, 1, 1, 1, 2, 0, false⟩], [⟨3, false, false⟩], 1, 3⟩
        (initState ⟨[⟨true, 1, 1, 1, 2, 0, false⟩], [⟨3, false, false⟩], 1, 3⟩) = none
      ↔ isValidSchedule ⟨[⟨true, 1, 1, 1, 2, 0, false⟩], [⟨3, false, false⟩], 1, 3⟩
        (initState ⟨[⟨true, 1, 1, 1, 2, 0, false⟩], [⟨3, false, false⟩], 1, 3⟩) = false :=
  (c1_amended ⟨[⟨true, 1, 1, 1, 2, 0, false⟩], [⟨3, false, false⟩], 1, 3⟩
    (initState ⟨[⟨true, 1, 1, 1, 2, 0, false⟩], [⟨3, false, false⟩], 1, 3⟩)).1

/-- The inputs of the C1 counterexample: one service whose staffing
bounds `[0, 1]` admit zero occupancy. -/
def envC1 : SchedInputs :=
  ⟨[⟨true, 0, 1, 1, 2, 0, false⟩], [⟨3, false, false⟩], 1, 3⟩

/-- C1 counterexample. Immediately after construction — before any
`create` call, with every entry still the unassigned sentinel — both
accessors return the raw views instead of the absent result, because
the all-empty occupancy already satisfies the `[0, 1]` bounds. -/
theorem c1_counterexample :
    scheduleAccessor envC1 (initState envC1) = some (initState envC1).schedule ∧
      serviceScheduleAccessor envC1 (initState envC1)
        = some (initState envC1).serviceSchedule ∧
      (initState envC1).schedule 0 0 = -1 := by
  refine ⟨?_, ?_, rfl⟩
  · rw [scheduleAccessor, if_pos]
    show isValidSchedule envC1 (initState envC1) = true
    decide
  · rw [serviceScheduleAccessor, if_pos]
    show isValidSchedule envC1 (initState envC1) = true
    decide

/-! ## Specification of the backtracking search -/

theorem backtrack_nil (env : SchedInputs) (σ : SchedState) :
    backtrack env [] σ = (isValidSchedule env σ, σ) := rfl

theorem backtrack_cons (env : SchedInputs) (b r : ℕ) (rest : List (ℕ × ℕ))
    (σ : SchedState) :
    backtrack env ((b, r) :: rest) σ =
      if σ.schedule r b ≠ -1 then backtrack env rest σ
      else
        let cands := sortedServiceIdxs env σ b r
        let out := tryCands env (fun σ' => backtrack env rest σ') b r cands σ
        if out.1 then out
        else
          if out.2.remainingResidentsPerBlock b > out.2.remainingSpotsPerBlock b then
            backtrack env rest (assignFreeBlock env b r out.2)
          else (false, out.2) := rfl

theorem tryCands_nil (env : SchedInputs) (recur : SchedState → Bool × SchedState)
    (b r : ℕ) (σ : SchedState) : tryCands env recur b r [] σ = (false, σ) := rfl

theorem tryCands_cons (env : SchedInputs) (recur : SchedState → Bool × SchedState)
    (b r s : ℕ) (ss : List ℕ) (σ : SchedState) :
    tryCands env recur b r (s :: ss) σ =
      if σ.remainingSpotsPerServicePerBlock s b = 0 ∨ anyRuleViolated env σ b r s = true then
        tryCands env recur b r ss σ
      else
        let out := recur (assign b r s σ)
        if out.1 then out
        else tryCands env recur b r ss (unassign b r s out.2) := rfl

/-- What a failed branch preserves exactly: the service view, the
resident-service counts and the two capacity counter families (the
free-block fallback does not touch these even on its failure path). -/
def FailPreserved (σ σ' : SchedState) : Prop :=
  (∀ s b, σ'.serviceSchedule s b = σ.serviceSchedule s b) ∧
  (∀ r s, σ'.residentServiceCount r s = σ.residentServiceCount r s) ∧
  (∀ s b, σ'.remainingSpotsPerServicePerBlock s b = σ.remainingSpotsPerServicePerBlock s b) ∧
  (∀ b, σ'.remainingSpotsPerBlock b = σ.remainingSpotsPerBlock b)

theorem failPreserved_refl (σ : SchedState) : FailPreserved σ σ :=
  ⟨fun _ _ => rfl, fun _ _ => rfl, fun _ _ => rfl, fun _ => rfl⟩

theorem failPreserved_trans {σ τ υ : SchedState} (h1 : FailPreserved σ τ)
    (h2 : FailPreserved τ υ) : FailPreserved σ υ :=
  ⟨fun s b => (h2.1 s b).trans (h1.1 s b),
    fun r s => (h2.2.1 r s).trans (h1.2.1 r s),
    fun s b => (h2.2.2.1 s b).trans (h1.2.2.1 s b),
    fun b => (h2.2.2.2 b).trans (h1.2.2.2 b)⟩

/-- All pairs of the list are in-range (block, resident) pairs. -/
def PairsOK (env : SchedInputs) (l : List (ℕ × ℕ)) : Prop :=
  ∀ p ∈ l, p.1 < env.B ∧ p.2 < env.R

/-- The contract the candidate loop needs from the recursive call it
wraps: it preserves the three state invariants, does not touch the
resident-view entry of any pair satisfying `P` (the pairs not in its own
suffix of the order), and on failure preserves the service view, counts
and capacity counters. -/
def RecurOK (env : SchedInputs) (recur : SchedState → Bool × SchedState)
    (P : ℕ → ℕ → Prop) : Prop :=
  ∀ σ, Views env σ → CountersRes env σ → SpotsTotal env σ →
    (Views env (recur σ).2 ∧ CountersRes env (recur σ).2 ∧ SpotsTotal env (recur σ).2) ∧
    (∀ r' b', P r' b' → (recur σ).2.schedule r' b' = σ.schedule r' b') ∧
    ((recur σ).1 = false → FailPreserved σ (recur σ).2)

theorem tryCands_cons_eq (env : SchedInputs) (recur : SchedState → Bool × SchedState)
    (b r s : ℕ) (ss : List ℕ) (σ : SchedState) :
    tryCands env recur b r (s :: ss) σ =
      if σ.remainingSpotsPerServicePerBlock s b = 0 ∨ anyRuleViolated env σ b r s = true then
        tryCands env recur b r ss σ
      else if (recur (assign b r s σ)).1 then recur (assign b r s σ)
      else tryCands env recur b r ss (unassign b r s (recur (assign b r s σ)).2) := rfl

theorem tryCands_spec (env : SchedInputs) (recur : SchedState → Bool × SchedState)
    (P : ℕ → ℕ → Prop) (b r : ℕ) (hb : b < env.B) (hr : r < env.R) (hP : P r b)
    (hrec : RecurOK env recur P) :
    ∀ cands : List ℕ, (∀ s ∈ cands, s < env.S) →
      ∀ σ : SchedState, Views env σ → CountersRes env σ → SpotsTotal env σ →
        σ.schedule r b = -1 →
        (Views env (tryCands env recur b r cands σ).2
          ∧ CountersRes env (tryCands env recur b r cands σ).2
          ∧ SpotsTotal env (tryCands env recur b r cands σ).2)
        ∧ (∀ r' b', P r' b' → ¬(r' = r ∧ b' = b) →
            (tryCands env recur b r cands σ).2.schedule r' b' = σ.schedule r' b')
        ∧ ((tryCands env recur b r cands σ).1 = false →
            (tryCands env recur b r cands σ).2.schedule r b = -1
            ∧ FailPreserved σ (tryCands env recur b r cands σ).2) := by
  intro cands
  induction cands with
  | nil =>
      intro _ σ hV hC hS hentry
      rw [tryCands_nil]
      exact ⟨⟨hV, hC, hS⟩, fun _ _ _ _ => rfl, fun _ => ⟨hentry, failPreserved_refl σ⟩⟩
  | cons s ss ih =>
      intro hcands σ hV hC hS hentry
      have hsS : s < env.S := hcands s (List.mem_cons_self s ss)
      have hssS : ∀ x ∈ ss, x < env.S := fun x hx => hcands x (List.mem_cons_of_mem s hx)
      rw [tryCands_cons_eq]
      by_cases hskip : σ.remainingSpotsPerServicePerBlock s b = 0
          ∨ anyRuleViolated env σ b r s = true
      · rw [if_pos hskip]
        exact ih hssS σ hV hC hS hentry
      · rw [if_neg hskip]
        have hview : r ∉ σ.serviceSchedule s b := by
          rw [hV r b s hsS, hentry]
          omega
        have hV1 : Views env (assign b r s σ) := views_assign hV s hentry
        have hC1 : CountersRes env (assign b r s σ) := countersRes_assign hC s hb hr hentry
        have hS1 : SpotsTotal env (assign b r s σ) := spotsTotal_assign hS hsS hview
        obtain ⟨⟨hV2, hC2, hS2⟩, huntouched2, hfail2⟩ := hrec (assign b r s σ) hV1 hC1 hS1
        by_cases hres : (recur (assign b r s σ)).1 = true
        · rw [if_pos hres]
          refine ⟨⟨hV2, hC2, hS2⟩, ?_, ?_⟩
          · intro r' b' hP' hne
            rw [huntouched2 r' b' hP']
            show (if r' = r ∧ b' = b then (s : ℤ) else σ.schedule r' b') = _
            rw [if_neg hne]
          · intro hcontra
            rw [hres] at hcontra
            exact absurd hcontra (by simp)
        · rw [if_neg hres]
          have hresF : (recur (assign b r s σ)).1 = false := by
            simpa using hres
          have hfp12 := hfail2 hresF
          have hentry2 : (recur (assign b r s σ)).2.schedule r b = (s : ℤ) := by
            rw [huntouched2 r b hP]
            exact if_pos ⟨rfl, rfl⟩
          have hV3 : Views env (unassign b r s (recur (assign b r s σ)).2) :=
            views_unassign hV2 hentry2
          have hC3 : CountersRes env (unassign b r s (recur (assign b r s σ)).2) :=
            countersRes_unassign hC2 hb hr hentry2
          have hview2 : r ∈ (recur (assign b r s σ)).2.serviceSchedule s b :=
            (hV2 r b s hsS).mpr hentry2
          have hS3 : SpotsTotal env (unassign b r s (recur (assign b r s σ)).2) :=
            spotsTotal_unassign hS2 hsS hview2
          have hentry3 : (unassign b r s (recur (assign b r s σ)).2).schedule r b = -1 :=
            if_pos ⟨rfl, rfl⟩
          have hIH := ih hssS (unassign b r s (recur (assign b r s σ)).2) hV3 hC3 hS3 hentry3
          have hfp03 : FailPreserved σ (unassign b r s (recur (assign b r s σ)).2) := by
            refine ⟨?_, ?_, ?_, ?_⟩
            · intro s' b'
              show (if s' = s ∧ b' = b
                  then ((recur (assign b r s σ)).2.serviceSchedule s' b').erase r
                  else (recur (assign b r s σ)).2.serviceSchedule s' b') = _
              by_cases hc : s' = s ∧ b' = b
              · obtain ⟨rfl, rfl⟩ := hc
                rw [if_pos ⟨rfl, rfl⟩, hfp12.1 s' b']
                show (if s' = s' ∧ b' = b' then insert r (σ.serviceSchedule s' b')
                  else σ.serviceSchedule s' b').erase r = _
                rw [if_pos ⟨rfl, rfl⟩]
                exact Finset.erase_insert hview
              · rw [if_neg hc, hfp12.1 s' b']
                show (if s' = s ∧ b' = b then insert r (σ.serviceSchedule s' b')
                  else σ.serviceSchedule s' b') = _
                rw [if_neg hc]
            · intro r' s'
              show (if r' = r ∧ s' = s
                  then (recur (assign b r s σ)).2.residentServiceCount r' s' - 1
                  else (recur (assign b r s σ)).2.residentServiceCount r' s') = _
              by_cases hc : r' = r ∧ s' = s
              · rw [if_pos hc, hfp12.2.1 r' s']
                show (if r' = r ∧ s' = s then σ.residentServiceCount r' s' + 1
                  else σ.residentServiceCount r' s') - 1 = _
                rw [if_pos hc]
                ring
              · rw [if_neg hc, hfp12.2.1 r' s']
                show (if r' = r ∧ s' = s then σ.residentServiceCount r' s' + 1
                  else σ.residentServiceCount r' s') = _
                rw [if_neg hc]
            · intro s' b'
              show (if s' = s ∧ b' = b
                  then (recur (assign b r s σ)).2.remainingSpotsPerServicePerBlock s' b' + 1
                  else (recur (assign b r s σ)).2.remainingSpotsPerServicePerBlock s' b') = _
              by_cases hc : s' = s ∧ b' = b
              · rw [if_pos hc, hfp12.2.2.1 s' b']
                show (if s' = s ∧ b' = b then σ.remainingSpotsPerServicePerBlock s' b' - 1
                  else σ.remainingSpotsPerServicePerBlock s' b') + 1 = _
                rw [if_pos hc]
                ring
              · rw [if_neg hc, hfp12.2.2.1 s' b']
                show (if s' = s ∧ b' = b then σ.remainingSpotsPerServicePerBlock s' b' - 1
                  else σ.remainingSpotsPerServicePerBlock s' b') = _
                rw [if_neg hc]
            · intro b'
              show (if b' = b
                  then (recur (assign b r s σ)).2.remainingSpotsPerBlock b' + 1
                  else (recur (assign b r s σ)).2.remainingSpotsPerBlock b') = _
              by_cases hc : b' = b
              · rw [if_pos hc, hfp12.2.2.2 b']
                show (if b' = b then σ.remainingSpotsPerBlock b' - 1
                  else σ.remainingSpotsPerBlock b') + 1 = _
                rw [if_pos hc]
                ring
              · rw [if_neg hc, hfp12.2.2.2 b']
                show (if b' = b then σ.remainingSpotsPerBlock b' - 1
                  else σ.remainingSpotsPerBlock b') = _
                rw [if_neg hc]
          refine ⟨hIH.1, ?_, ?_⟩
          · intro r' b' hP' hne
            rw [hIH.2.1 r' b' hP' hne]
            show (if r' = r ∧ b' = b then (-1 : ℤ)
              else (recur (assign b r s σ)).2.schedule r' b') = _
            rw [if_neg hne, huntouched2 r' b' hP']
            show (if r' = r ∧ b' = b then (s : ℤ) else σ.schedule r' b') = _
            rw [if_neg hne]
          · intro hf
            obtain ⟨hent, hfp3o⟩ := hIH.2.2 hf
            exact ⟨hent, failPreserved_trans hfp03 hfp3o⟩

theorem backtrack_cons_eq (env : SchedInputs) (b r : ℕ) (rest : List (ℕ × ℕ))
    (σ : SchedState) :
    backtrack env ((b, r) :: rest) σ =
      if σ.schedule r b ≠ -1 then backtrack env rest σ
      else if (tryCands env (fun σ' => backtrack env rest σ') b r
          (sortedServiceIdxs env σ b r) σ).1 then
        tryCands env (fun σ' => backtrack env rest σ') b r (sortedServiceIdxs env σ b r) σ
      else if (tryCands env (fun σ' => backtrack env rest σ') b r
            (sortedServiceIdxs env σ b r) σ).2.remainingResidentsPerBlock b >
          (tryCands env (fun σ' => backtrack env rest σ') b r
            (sortedServiceIdxs env σ b r) σ).2.remainingSpotsPerBlock b then
        backtrack env rest (assignFreeBlock env b r
          (tryCands env (fun σ' => backtrack env rest σ') b r
            (sortedServiceIdxs env σ b r) σ).2)
      else (false, (tryCands env (fun σ' => backtrack env rest σ') b r
        (sortedServiceIdxs env σ b r) σ).2) := rfl

theorem backtrack_spec (env : SchedInputs) :
    ∀ rest : List (ℕ × ℕ), rest.Nodup → PairsOK env rest →
      ∀ σ : SchedState, Views env σ → CountersRes env σ → SpotsTotal env σ →
        (Views env (backtrack env rest σ).2 ∧ CountersRes env (backtrack env rest σ).2
          ∧ SpotsTotal env (backtrack env rest σ).2)
        ∧ (∀ r' b', (b', r') ∉ rest →
            (backtrack env rest σ).2.schedule r' b' = σ.schedule r' b')
        ∧ ((backtrack env rest σ).1 = false →
            FailPreserved σ (backtrack env rest σ).2) := by
  intro rest
  induction rest with
  | nil =>
      intro _ _ σ hV hC hS
      rw [backtrack_nil]
      exact ⟨⟨hV, hC, hS⟩, fun _ _ _ => rfl, fun _ => failPreserved_refl σ⟩
  | cons p rest ih =>
      obtain ⟨b, r⟩ := p
      intro hnd hok σ hV hC hS
      have hnotin : (b, r) ∉ rest := (List.nodup_cons.mp hnd).1
      have hndr : rest.Nodup := (List.nodup_cons.mp hnd).2
      have hokr : PairsOK env rest := fun q hq => hok q (List.mem_cons_of_mem _ hq)
      have hb : b < env.B := (hok (b, r) (List.mem_cons_self _ _)).1
      have hr : r < env.R := (hok (b, r) (List.mem_cons_self _ _)).2
      rw [backtrack_cons_eq]
      by_cases hskip : σ.schedule r b ≠ -1
      · rw [if_pos hskip]
        have hIH := ih hndr hokr σ hV hC hS
        exact ⟨hIH.1,
          fun r' b' hni => hIH.2.1 r' b' (fun hmem => hni (List.mem_cons_of_mem _ hmem)),
          hIH.2.2⟩
      · rw [if_neg hskip]
        have hentry : σ.schedule r b = -1 := not_not.mp hskip
        have hrec : RecurOK env (fun σ' => backtrack env rest σ')
            (fun r' b' => (b', r') ∉ rest) := by
          intro σ' hV' hC' hS'
          have h := ih hndr hokr σ' hV' hC' hS'
          exact ⟨h.1, h.2.1, h.2.2⟩
        have hcands : ∀ s ∈ sortedServiceIdxs env σ b r, s < env.S := fun s hs =>
          List.mem_range.mp ((List.mem_insertionSort _).mp hs)
        have htc := tryCands_spec env (fun σ' => backtrack env rest σ')
          (fun r' b' => (b', r') ∉ rest) b r hb hr hnotin hrec
          (sortedServiceIdxs env σ b r) hcands σ hV hC hS hentry
        by_cases hres : (tryCands env (fun σ' => backtrack env rest σ') b r
            (sortedServiceIdxs env σ b r) σ).1 = true
        · rw [if_pos hres]
          refine ⟨htc.1, ?_, ?_⟩
          · intro r' b' hni
            exact htc.2.1 r' b' (fun hmem => hni (List.mem_cons_of_mem _ hmem))
              (fun hc => hni (by rw [hc.1, hc.2]; exact List.mem_cons_self _ _))
          · intro hcontra
            rw [hres] at hcontra
            exact absurd hcontra (by simp)
        · rw [if_neg hres]
          have hresF : (tryCands env (fun σ' => backtrack env rest σ') b r
              (sortedServiceIdxs env σ b r) σ).1 = false := by
            simpa using hres
          obtain ⟨hent2, hfp02⟩ := htc.2.2 hresF
          by_cases hfb : (tryCands env (fun σ' => backtrack env rest σ') b r
              (sortedServiceIdxs env σ b r) σ).2.remainingResidentsPerBlock b >
            (tryCands env (fun σ' => backtrack env rest σ') b r
              (sortedServiceIdxs env σ b r) σ).2.remainingSpotsPerBlock b
          · rw [if_pos hfb]
            have hV3 : Views env (assignFreeBlock env b r
                (tryCands env (fun σ' => backtrack env rest σ') b r
                  (sortedServiceIdxs env σ b r) σ).2) :=
              views_free htc.1.1 hent2
            have hC3 := countersRes_free htc.1.2.1 hb hr hent2
            have hS3 := spotsTotal_free (b := b) (r := r) htc.1.2.2
            have hIH2 := ih hndr hokr _ hV3 hC3 hS3
            refine ⟨hIH2.1, ?_, ?_⟩
            · intro r' b' hni
              have hni' : (b', r') ∉ rest := fun hmem => hni (List.mem_cons_of_mem _ hmem)
              have hne : ¬(r' = r ∧ b' = b) := fun hc =>
                hni (by rw [hc.1, hc.2]; exact List.mem_cons_self _ _)
              rw [hIH2.2.1 r' b' hni']
              show (if r' = r ∧ b' = b then (env.S : ℤ)
                else (tryCands env (fun σ' => backtrack env rest σ') b r
                  (sortedServiceIdxs env σ b r) σ).2.schedule r' b') = _
              rw [if_neg hne]
              exact htc.2.1 r' b' hni' hne
            · intro hf
              have hfp23 : FailPreserved
                  (tryCands env (fun σ' => backtrack env rest σ') b r
                    (sortedServiceIdxs env σ b r) σ).2
                  (assignFreeBlock env b r
                    (tryCands env (fun σ' => backtrack env rest σ') b r
                      (sortedServiceIdxs env σ b r) σ).2) :=
                ⟨fun _ _ => rfl, fun _ _ => rfl, fun _ _ => rfl, fun _ => rfl⟩
              exact failPreserved_trans (failPreserved_trans hfp02 hfp23) (hIH2.2.2 hf)
          · rw [if_neg hfb]
            refine ⟨htc.1, ?_, fun _ => hfp02⟩
            intro r' b' hni
            exact htc.2.1 r' b' (fun hmem => hni (List.mem_cons_of_mem _ hmem))
              (fun hc => hni (by rw [hc.1, hc.2]; exact List.mem_cons_self _ _))

/-- When every service's staffing bounds admit zero occupancy, the
search always succeeds: every unassigned pair can fall back to a free
block because the remaining-capacity counter of its block is never
positive while at least one resident is still unassigned. -/
theorem backtrack_success (env : SchedInputs)
    (hSmin : ∀ s, s < env.S → (env.svc s).minSeniorsPerBlock ≤ 0) :
    ∀ rest : List (ℕ × ℕ), rest.Nodup → PairsOK env rest →
      ∀ σ : SchedState, Views env σ → CountersRes env σ → SpotsTotal env σ →
        (∀ s, s < env.S → ∀ b, b < env.B →
          ((σ.serviceSchedule s b).card : ℤ) ≤ (env.svc s).maxSeniorsPerBlock) →
        (backtrack env rest σ).1 = true := by
  intro rest
  induction rest with
  | nil =>
      intro _ _ σ _ _ _ hOF
      rw [backtrack_nil]
      show isValidSchedule env σ = true
      rw [isValidSchedule, List.all_eq_true]
      intro s hsmem
      rw [List.all_eq_true]
      intro b hbmem
      have hs := List.mem_range.mp hsmem
      have hb := List.mem_range.mp hbmem
      rw [decide_eq_true_eq]
      have hmin := hSmin s hs
      have hcard : (0 : ℤ) ≤ ((σ.serviceSchedule s b).card : ℤ) := by
        exact_mod_cast Nat.zero_le _
      exact ⟨by omega, hOF s hs b hb⟩
  | cons p rest ih =>
      obtain ⟨b, r⟩ := p
      intro hnd hok σ hV hC hS hOF
      have hnotin : (b, r) ∉ rest := (List.nodup_cons.mp hnd).1
      have hndr : rest.Nodup := (List.nodup_cons.mp hnd).2
      have hokr : PairsOK env rest := fun q hq => hok q (List.mem_cons_of_mem _ hq)
      have hb : b < env.B := (hok (b, r) (List.mem_cons_self _ _)).1
      have hr : r < env.R := (hok (b, r) (List.mem_cons_self _ _)).2
      rw [backtrack_cons_eq]
      by_cases hskip : σ.schedule r b ≠ -1
      · rw [if_pos hskip]
        exact ih hndr hokr σ hV hC hS hOF
      · rw [if_neg hskip]
        have hentry : σ.schedule r b = -1 := not_not.mp hskip
        have hrec : RecurOK env (fun σ' => backtrack env rest σ')
            (fun r' b' => (b', r') ∉ rest) := by
          intro σ' hV' hC' hS'
          have h := backtrack_spec env rest hndr hokr σ' hV' hC' hS'
          exact ⟨h.1, h.2.1, h.2.2⟩
        have hcands : ∀ s ∈ sortedServiceIdxs env σ b r, s < env.S := fun s hs =>
          List.mem_range.mp ((List.mem_insertionSort _).mp hs)
        have htc := tryCands_spec env (fun σ' => backtrack env rest σ')
          (fun r' b' => (b', r') ∉ rest) b r hb hr hnotin hrec
          (sortedServiceIdxs env σ b r) hcands σ hV hC hS hentry
        by_cases hres : (tryCands env (fun σ' => backtrack env rest σ') b r
            (sortedServiceIdxs env σ b r) σ).1 = true
        · rw [if_pos hres]
          exact hres
        · rw [if_neg hres]
          have hresF : (tryCands env (fun σ' => backtrack env rest σ') b r
              (sortedServiceIdxs env σ b r) σ).1 = false := by
            simpa using hres
          obtain ⟨hent2, hfp02⟩ := htc.2.2 hresF
          have hC2 := htc.1.2.1
          have hS2 := htc.1.2.2
          have hfb : (tryCands env (fun σ' => backtrack env rest σ') b r
              (sortedServiceIdxs env σ b r) σ).2.remainingResidentsPerBlock b >
            (tryCands env (fun σ' => backtrack env rest σ') b r
              (sortedServiceIdxs env σ b r) σ).2.remainingSpotsPerBlock b := by
            have hres1 : 1 ≤ (tryCands env (fun σ' => backtrack env rest σ') b r
                (sortedServiceIdxs env σ b r) σ).2.remainingResidentsPerBlock b := by
              rw [hC2 b hb]
              have hmem : r ∈ (Finset.range env.R).filter (fun r' =>
                  (tryCands env (fun σ' => backtrack env rest σ') b r
                    (sortedServiceIdxs env σ b r) σ).2.schedule r' b = -1) :=
                Finset.mem_filter.mpr ⟨Finset.mem_range.mpr hr, by simpa using hent2⟩
              have : 1 ≤ ((Finset.range env.R).filter (fun r' =>
                  (tryCands env (fun σ' => backtrack env rest σ') b r
                    (sortedServiceIdxs env σ b r) σ).2.schedule r' b = -1)).card :=
                Finset.card_pos.mpr ⟨r, hmem⟩
              exact_mod_cast this
            have hspots : (tryCands env (fun σ' => backtrack env rest σ') b r
                (sortedServiceIdxs env σ b r) σ).2.remainingSpotsPerBlock b ≤ 0 := by
              rw [hS2 b hb]
              have h1 : (∑ s ∈ Finset.range env.S, (env.svc s).minSeniorsPerBlock) ≤ 0 :=
                Finset.sum_nonpos (fun s hs => hSmin s (Finset.mem_range.mp hs))
              have h2 : (0 : ℤ) ≤ ∑ s ∈ Finset.range env.S,
                  (((tryCands env (fun σ' => backtrack env rest σ') b r
                    (sortedServiceIdxs env σ b r) σ).2.serviceSchedule s b).card : ℤ) :=
                Finset.sum_nonneg (fun s _ => by exact_mod_cast Nat.zero_le _)
              omega
            omega
          rw [if_pos hfb]
          have hV3 := views_free htc.1.1 hent2
          have hC3 := countersRes_free hC2 hb hr hent2
          have hS3 := spotsTotal_free (b := b) (r := r) hS2
          have hOF3 : ∀ s, s < env.S → ∀ b', b' < env.B →
              (((assignFreeBlock env b r (tryCands env (fun σ' => backtrack env rest σ') b r
                (sortedServiceIdxs env σ b r) σ).2).serviceSchedule s b').card : ℤ)
                ≤ (env.svc s).maxSeniorsPerBlock := by
            intro s hs b' hb'
            show (((tryCands env (fun σ' => backtrack env rest σ') b r
              (sortedServiceIdxs env σ b r) σ).2.serviceSchedule s b').card : ℤ) ≤ _
            rw [hfp02.1 s b']
            exact hOF s hs b' hb'
          exact ih hndr hokr _ hV3 hC3 hS3 hOF3

theorem countersRes_searchStart (env : SchedInputs) (rsc : Option (ℕ → ℕ → Option ℤ)) :
    CountersRes env (searchStart env rsc) :=
  fun _ _ => rfl

theorem spotsTotal_searchStart (env : SchedInputs) (rsc : Option (ℕ → ℕ → Option ℤ)) :
    SpotsTotal env (searchStart env rsc) := by
  intro b _
  show (∑ s ∈ Finset.range env.S, (env.svc s).minSeniorsPerBlock) = _
  have hsets : ∀ s, (searchStart env rsc).serviceSchedule s b = (∅ : Finset ℕ) :=
    fun s => congrFun (congrFun (searchStart_serviceSchedule env rsc) s) b
  have hzero : (∑ s ∈ Finset.range env.S,
      (((searchStart env rsc).serviceSchedule s b).card : ℤ)) = 0 := by
    apply Finset.sum_eq_zero
    intro s _
    rw [hsets s]
    simp
  rw [hzero, sub_zero]

theorem allPairs_mem (env : SchedInputs) (p : ℕ × ℕ) :
    p ∈ allPairs env ↔ p.1 < env.B ∧ p.2 < env.R := by
  obtain ⟨pb, pr⟩ := p
  simp only [allPairs, List.mem_flatMap, List.mem_map, List.mem_range, Prod.mk.injEq]
  constructor
  · rintro ⟨b, hb, r, hr, rfl, rfl⟩
    exact ⟨hb, hr⟩
  · rintro ⟨hb, hr⟩
    exact ⟨pb, hb, pr, hr, rfl, rfl⟩

theorem allPairs_nodup (env : SchedInputs) : (allPairs env).Nodup := by
  rw [allPairs, List.nodup_flatMap]
  constructor
  · intro b _
    exact (List.nodup_range _).map (fun r1 r2 h => congrArg Prod.snd h)
  · have hlt : (List.range env.B).Pairwise (· < ·) := List.pairwise_lt_range env.B
    apply hlt.imp
    intro b1 b2 hlt12 x hx1 hx2
    obtain ⟨r1, -, rfl⟩ := List.mem_map.mp hx1
    obtain ⟨r2, -, heq⟩ := List.mem_map.mp hx2
    exact absurd (congrArg Prod.fst heq).symm (Nat.ne_of_lt hlt12)

theorem blockResidentOrder_perm (env : SchedInputs) (σ : SchedState) (randomize : Bool)
    (stream : ℕ → ℚ) : (blockResidentOrder env σ randomize stream).Perm (allPairs env) :=
  List.perm_insertionSort _ _

theorem blockResidentOrder_nodup (env : SchedInputs) (σ : SchedState) (randomize : Bool)
    (stream : ℕ → ℚ) : (blockResidentOrder env σ randomize stream).Nodup :=
  ((blockResidentOrder_perm env σ randomize stream).nodup_iff).mpr (allPairs_nodup env)

theorem blockResidentOrder_pairsOK (env : SchedInputs) (σ : SchedState) (randomize : Bool)
    (stream : ℕ → ℚ) : PairsOK env (blockResidentOrder env σ randomize stream) :=
  fun p hp => (allPairs_mem env p).mp
    ((blockResidentOrder_perm env σ randomize stream).mem_iff.mp hp)

/-- When the search fails, the final state's schedule is invalid (its
service view is back to the all-empty occupancy, which the failure
itself shows cannot satisfy the staffing minima — otherwise the
free-block fallback would have completed the search). -/
theorem createFull_false_invalid (env : SchedInputs) (randomSeed : ℕ)
    (rsc : Option (ℕ → ℕ → Option ℤ))
    (randomize : Bool) (prng : ℕ → ℕ → ℚ)
    (hf : (createFull env randomSeed rsc randomize prng).1 = false) :
    isValidSchedule env (createFull env randomSeed rsc randomize prng).2 = false := by
  have hnd := blockResidentOrder_nodup env (searchStart env rsc) randomize
    (prng randomSeed)
  have hok := blockResidentOrder_pairsOK env (searchStart env rsc) randomize
    (prng randomSeed)
  have hbs := backtrack_spec env
    (blockResidentOrder env (searchStart env rsc) randomize (prng randomSeed))
    hnd hok (searchStart env rsc) (views_searchStart env rsc)
    (countersRes_searchStart env rsc) (spotsTotal_searchStart env rsc)
  have hfp := hbs.2.2 hf
  by_contra hvalid'
  have hvalid : isValidSchedule env (createFull env randomSeed rsc randomize prng).2 = true := by
    cases h : isValidSchedule env (createFull env randomSeed rsc randomize prng).2
    · exact absurd h hvalid'
    · rfl
  have hsetsF : ∀ s b, (createFull env randomSeed rsc randomize prng).2.serviceSchedule s b
      = (∅ : Finset ℕ) := fun s b => by
    have h1 := hfp.1 s b
    have h2 := congrFun (congrFun (searchStart_serviceSchedule env rsc) s) b
    exact h1.trans h2
  have hbounds : ∀ s, s < env.S → ∀ b, b < env.B →
      (env.svc s).minSeniorsPerBlock ≤ 0 ∧ 0 ≤ (env.svc s).maxSeniorsPerBlock := by
    intro s hs b hb
    have := hvalid
    rw [isValidSchedule, List.all_eq_true] at this
    have h1 := this s (List.mem_range.mpr hs)
    rw [List.all_eq_true] at h1
    have h2 := h1 b (List.mem_range.mpr hb)
    rw [decide_eq_true_eq, hsetsF s b] at h2
    simpa using h2
  by_cases hB0 : env.B = 0
  · have hpairs : allPairs env = [] := by
      rw [allPairs, hB0]
      rfl
    have hord : blockResidentOrder env (searchStart env rsc) randomize
        (prng randomSeed) = [] := by
      rw [blockResidentOrder, hpairs]
      rfl
    have : (createFull env randomSeed rsc randomize prng).1
        = isValidSchedule env (searchStart env rsc) := by
      show (backtrack env (blockResidentOrder env (searchStart env rsc) randomize
        (prng randomSeed)) (searchStart env rsc)).1 = _
      rw [hord, backtrack_nil]
    rw [this] at hf
    have : (createFull env randomSeed rsc randomize prng).2 = searchStart env rsc := by
      show (backtrack env (blockResidentOrder env (searchStart env rsc) randomize
        (prng randomSeed)) (searchStart env rsc)).2 = _
      rw [hord, backtrack_nil]
    rw [this, hf] at hvalid
    exact absurd hvalid (by simp)
  · have hBpos : 0 < env.B := Nat.pos_of_ne_zero hB0
    have hOF : ∀ s, s < env.S → ∀ b, b < env.B →
        (((searchStart env rsc).serviceSchedule s b).card : ℤ)
          ≤ (env.svc s).maxSeniorsPerBlock := by
      intro s hs b hb
      rw [congrFun (congrFun (searchStart_serviceSchedule env rsc) s) b]
      simpa using (hbounds s hs b hb).2
    have hsucc := backtrack_success env
      (fun s hs => (hbounds s hs 0 hBpos).1)
      (blockResidentOrder env (searchStart env rsc) randomize (prng randomSeed))
      hnd hok (searchStart env rsc) (views_searchStart env rsc)
      (countersRes_searchStart env rsc) (spotsTotal_searchStart env rsc) hOF
    have hf2 : (backtrack env (blockResidentOrder env (searchStart env rsc) randomize
        (prng randomSeed)) (searchStart env rsc)).1 = false := hf
    rw [hf2] at hsucc
    exact absurd hsucc (by simp)

/-- C2. On every input on which the backtracking search exhausts all
branches without finding a globally valid schedule, `create` returns the
explicit "no schedule" result `None` on both the verbose and the quiet
path (the quiet path returns the `schedule` property, which is `None`
because the failed search leaves the service view empty and the empty
occupancy violates some staffing bound — otherwise the search could not
have failed); and the value returned by `create` is the same whether
`verbose` is true or false. -/
theorem c2_infeasible_returns_none (env : SchedInputs) (randomSeed : ℕ)
    (rsc : Option (ℕ → ℕ → Option ℤ)) (randomize : Bool) (prng : ℕ → ℕ → ℚ)
    (g0 g1 : ℕ → ℚ) :
    ((createFull env randomSeed rsc randomize prng).1 = false →
        create env randomSeed rsc randomize true prng g0 = none
        ∧ create env randomSeed rsc randomize false prng g1 = none)
    ∧ create env randomSeed rsc randomize true prng g0 = create env randomSeed rsc randomize false prng g1 := by
  have hnone : (createFull env randomSeed rsc randomize prng).1 = false →
      scheduleAccessor env (createFull env randomSeed rsc randomize prng).2 = none := by
    intro hf
    rw [scheduleAccessor, if_neg]
    rw [createFull_false_invalid env randomSeed rsc randomize prng hf]
    simp
  constructor
  · intro hf
    constructor
    · show (if true = true ∧ (createFull env randomSeed rsc randomize prng).1 = false then none
        else scheduleAccessor env (createFull env randomSeed rsc randomize prng).2) = none
      rw [if_pos ⟨rfl, hf⟩]
    · show (if false = true ∧ (createFull env randomSeed rsc randomize prng).1 = false then none
        else scheduleAccessor env (createFull env randomSeed rsc randomize prng).2) = none
      rw [if_neg (fun hc => by exact absurd hc.1 (by simp)), hnone hf]
  · by_cases hres : (createFull env randomSeed rsc randomize prng).1 = false
    · show (if true = true ∧ (createFull env randomSeed rsc randomize prng).1 = false then none
        else scheduleAccessor env (createFull env randomSeed rsc randomize prng).2)
        = (if false = true ∧ (createFull env randomSeed rsc randomize prng).1 = false then none
        else scheduleAccessor env (createFull env randomSeed rsc randomize prng).2)
      rw [if_pos ⟨rfl, hres⟩, if_neg (fun hc => by exact absurd hc.1 (by simp)),
        hnone hres]
    · show (if true = true ∧ (createFull env randomSeed rsc randomize prng).1 = false then none
        else scheduleAccessor env (createFull env randomSeed rsc randomize prng).2)
        = (if false = true ∧ (createFull env randomSeed rsc randomize prng).1 = false then none
        else scheduleAccessor env (createFull env randomSeed rsc randomize prng).2)
      rw [if_neg (fun hc => hres hc.2), if_neg (fun hc => by exact absurd hc.1 (by simp))]

/-! ## Claim C6: the variable order -/

theorem pairKeyLe_total (k l : ℚ × ℕ × ℚ × ℤ × ℚ) : pairKeyLe k l ∨ pairKeyLe l k :=
  lexStep_total _ _ (lexStep_total _ _ (lexStep_total _ _ (lexStep_total _ _
    (le_total _ _))))

theorem pairKeyLe_trans {k l m : ℚ × ℕ × ℚ × ℤ × ℚ} (h1 : pairKeyLe k l)
    (h2 : pairKeyLe l m) : pairKeyLe k m :=
  lexStep_trans (lexStep_trans (lexStep_trans (lexStep_trans
    (fun hx hy => le_trans hx hy)))) h1 h2

/-- The ordering of the claim, spelled out on a pair of
(block, resident) pairs: descending per-block restrictiveness, then
ascending block index, then descending pair-level restrictiveness, then
descending resident program year, then the tiebreak value (seeded random
draw, or resident index when randomization is disabled). -/
def specPairOrdered (env : SchedInputs) (σ : SchedState) (randomize : Bool)
    (stream : ℕ → ℚ) (p q : ℕ × ℕ) : Prop :=
  restrictionsByBlock env σ q.1 < restrictionsByBlock env σ p.1
  ∨ (restrictionsByBlock env σ p.1 = restrictionsByBlock env σ q.1
    ∧ (p.1 < q.1
      ∨ (p.1 = q.1
        ∧ (restrictions env σ q.1 q.2 < restrictions env σ p.1 p.2
          ∨ (restrictions env σ p.1 p.2 = restrictions env σ q.1 q.2
            ∧ ((env.res q.2).year < (env.res p.2).year
              ∨ ((env.res p.2).year = (env.res q.2).year
                ∧ tieBreak env randomize stream p ≤ tieBreak env randomize stream q)))))))

theorem pairKeyLe_iff_spec (env : SchedInputs) (σ : SchedState) (randomize : Bool)
    (stream : ℕ → ℚ) (p q : ℕ × ℕ) :
    pairKeyLe (blockResidentSortKey env σ randomize stream p)
      (blockResidentSortKey env σ randomize stream q)
    ↔ specPairOrdered env σ randomize stream p q := by
  simp only [pairKeyLe, lexStep, blockResidentSortKey, specPairOrdered,
    neg_lt_neg_iff, neg_inj]

/-- C6. The variable order computed before search is a permutation of
all (block, resident) pairs, sorted by: descending per-block
restrictiveness, then ascending block index, then descending pair-level
restrictiveness, then descending resident program year, then the seeded
random tiebreak (or the resident index when randomization is disabled);
a pair's restrictiveness (`restrictions`) is the sum, over the services
the rule engine forbids for it, of min-seniors-per-block divided by
max-blocks-per-senior, and a block's restrictiveness
(`restrictionsByBlock`) is the sum of its pairs' scores. -/
theorem c6_variable_order (env : SchedInputs) (σ : SchedState) (randomize : Bool)
    (stream : ℕ → ℚ) :
    (blockResidentOrder env σ randomize stream).Perm (allPairs env)
    ∧ (blockResidentOrder env σ randomize stream).Sorted
        (specPairOrdered env σ randomize stream) := by
  refine ⟨blockResidentOrder_perm env σ randomize stream, ?_⟩
  haveI htot : IsTotal (ℕ × ℕ) (fun p q =>
      pairKeyLe (blockResidentSortKey env σ randomize stream p)
        (blockResidentSortKey env σ randomize stream q)) :=
    ⟨fun p q => pairKeyLe_total _ _⟩
  haveI htrans : IsTrans (ℕ × ℕ) (fun p q =>
      pairKeyLe (blockResidentSortKey env σ randomize stream p)
        (blockResidentSortKey env σ randomize stream q)) :=
    ⟨fun _ _ _ h1 h2 => pairKeyLe_trans h1 h2⟩
  have hs := List.sorted_insertionSort (fun p q =>
    pairKeyLe (blockResidentSortKey env σ randomize stream p)
      (blockResidentSortKey env σ randomize stream q)) (allPairs env)
  exact hs.imp (fun h => (pairKeyLe_iff_spec env σ randomize stream _ _).mp h)

/-! ## Claim C9: determinism -/

/-- C9. Two `create` calls with identical construction inputs and
identical seed, with randomization enabled, produce identical schedules:
the pre-existing state of the global random generator (`g0`/`g1`) is
irrelevant because `_block_resident_order` re-seeds it from
`random_seed` before any draw. With randomization disabled, the outcome
is deterministic regardless of the seed (and of the generator state):
the seed flows only into the random tiebreak, which is replaced by the
resident index. -/
theorem c9_determinism (env : SchedInputs) (randomSeed : ℕ)
    (rsc : Option (ℕ → ℕ → Option ℤ))
    (verbose : Bool) (prng : ℕ → ℕ → ℚ) (g0 g1 : ℕ → ℚ) (s1 s2 : ℕ) :
    (create env randomSeed rsc true verbose prng g0
        = create env randomSeed rsc true verbose prng g1)
    ∧ (create env s1 rsc false verbose prng g0
        = create env s2 rsc false verbose prng g1) := by
  constructor
  · rfl
  · rfl

/-! ## Claim C7: failed free-block branches leave the pair assigned -/

/-- The C7 failing input: three PGY-2 residents, one block, and two
services — `W` (index 0, one senior per block, three blocks per senior
allowed) and `X` (index 1, one senior per block, blocked for PGY-2
residents until block 99). The only way to staff `X` would be a PGY-2
resident, which rule 2 forbids, so the search must fail. -/
def envC7 : SchedInputs :=
  ⟨[⟨false, 1, 1, 1, 3, 0, false⟩, ⟨false, 1, 1, 1, 1, 99, false⟩],
    [⟨2, false, false⟩, ⟨2, false, false⟩, ⟨2, false, false⟩], 1, 3⟩

/-- C7. Evaluation of the engine at the failing input: the search
exhausts all branches and returns failure, yet resident 1's block-0
entry in the state it leaves behind is the free/elective sentinel `2`
(`len(services)`) even though resident 1 is not a rising chief — the
free-block fallback assigned it and the failure path never undid it,
while the service branches were undone (resident 0's entry is back to
the unassigned sentinel). This contradicts the claim that every failed
branch leaves its pair unassigned and that only the rising-chief
pre-pass can leave a pair assigned. -/
theorem c7_failed_branch_leaves_assignment :
    (createFull envC7 0 none false (fun _ _ => 0)).1 = false
    ∧ (createFull envC7 0 none false (fun _ _ => 0)).2.schedule 1 0 = (2 : ℤ)
    ∧ (envC7.res 1).isRisingChief = false
    ∧ (createFull envC7 0 none false (fun _ _ => 0)).2.schedule 0 0 = -1 := by
  refine ⟨by decide, by decide, by decide, by decide⟩

/-- The C2 witness input: one service requiring a senior every block but
no residents at all — trivially infeasible. -/
def envC2 : SchedInputs :=
  ⟨[⟨true, 1, 1, 1, 2, 0, false⟩], [], 1, 3⟩

/-- Witness for C2 at the infeasible input: both the verbose and quiet
`create` return `None`. -/
theorem c2_infeasible_returns_none_witness :
    create envC2 0 none false true (fun _ _ => 0) (fun _ => 0) = none
    ∧ create envC2 0 none false false (fun _ _ => 0) (fun _ => 0) = none :=
  (c2_infeasible_returns_none envC2 0 none false (fun _ _ => 0) (fun _ => 0)
    (fun _ => 0)).1 (by decide)

end ResidentScheduler
